import Mathlib

/-!
Verification development for the distributed gateway connection orchestrator
of the chatgpt-bot repository.

The embedded code comes from two places:

* the worker-thread gateway manager (the file defining `concurrency`,
  `gateway.tellWorkerToIdentify`, `createWorker` and `workerListener`): the
  per-bucket identify queue (`bucket.identifyRequests`, a push/shift FIFO), the
  get-or-create worker map, the SHARD_ON handler (delay, then shift and resolve
  the head identify request) and the TO_IDENTIFY handler (await
  `gateway.requestIdentify`, then post ALLOW_IDENTIFY);
* the HTTP control channel (`src/gateway/index.ts`): the shared-secret
  authorization check and the dispatch on the request body type.

Parts of the orchestration that live in the discordeno library or in the
manager process rather than in the repository sources (bucket preparation,
the serialization of `spawnShards`, the grant/release discipline of
`requestIdentify`, and the recluster entry point `bot.restart()`) are modelled
from the specification; every such definition carries a doc comment starting
with "Modelled from the spec:".
-/

set_option autoImplicit false

/-! ### Shard and orchestration data model -/

/-- Configuration of one cluster generation: `totalShards` and
`maxConcurrency` come from the gateway bootstrap probe
(`connection.shards`, `connection.sessionStartLimit.maxConcurrency`),
`shardsPerWorker` from `config.gateway.shardsPerWorker`. -/
structure GenConfig where
  totalShards : Nat
  maxConcurrency : Nat
  shardsPerWorker : Nat
deriving DecidableEq

/-- Shard lifecycle states (spec section 4.3). `unspawned` marks a shard the
spawn sequence has not yet told; `pending` is PendingIdentify (IDENTIFY_SHARD
received, TO_IDENTIFY emitted); `waiting` marks a shard enqueued on the waiter
queue of its bucket; `identifying` holds from ALLOW_IDENTIFY until READY;
`ready` is the terminal state of a successful start. -/
inductive SState where
  | unspawned
  | pending
  | waiting
  | identifying
  | ready
deriving DecidableEq

/-- Concurrency bucket state. `gate` embeds the source field
`bucket.identifyRequests`: the queue of unresolved promises created by
`tellWorkerToIdentify`, tagged by the shard each promise was pushed for.
`owner` and `waiters` model the in-flight lock and FIFO waiter queue of the
identify scheduler (spec section 4.1); `toSpawn` holds the shards of this
bucket that the spawn sequence has not yet told. -/
structure Bucket where
  owner : Option Nat
  waiters : List Nat
  gate : List Nat
  toSpawn : List Nat
deriving DecidableEq

/-- Whole-generation state: per-shard states, per-bucket scheduler state, the
set of created worker ids, and the log of IDENTIFY_SHARD instructions sent
(pairs of worker id and shard id, in send order). -/
structure GenState where
  shards : List SState
  buckets : List Bucket
  workers : List Nat
  sent : List (Nat × Nat)
deriving DecidableEq

/-- Embeds the source function
`concurrency = (shardId) => shardId % connection.sessionStartLimit.maxConcurrency`. -/
def concurrency (cfg : GenConfig) (shardId : Nat) : Nat :=
  shardId % cfg.maxConcurrency

/-- Modelled from the spec: the worker owning a shard. The sources compute
`totalWorkers = Math.ceil(connection.shards / config.gateway.shardsPerWorker)`
and the spec hands each worker a contiguous shard range, so shard `s` belongs
to worker `s / shardsPerWorker`. -/
def workerOf (cfg : GenConfig) (shardId : Nat) : Nat :=
  shardId / cfg.shardsPerWorker

/-- Embeds the get-or-create step of `tellWorkerToIdentify`: a worker id is
added only if it is not already tracked. -/
def addWorker (ws : List Nat) (w : Nat) : List Nat :=
  if w ∈ ws then ws else ws ++ [w]

/-- Modelled from the spec: the bucket partition prepared by the gateway
manager, bucket `b` holding exactly the shards with `shardId mod
maxConcurrency = b`. -/
def bucketShards (cfg : GenConfig) (b : Nat) : List Nat :=
  (List.range cfg.totalShards).filter (fun s => s % cfg.maxConcurrency == b)

/-- Initial state of one bucket: no identify in flight, empty queues, the full
bucket shard list still to spawn. -/
def initBucket (cfg : GenConfig) (b : Nat) : Bucket :=
  ⟨none, [], [], bucketShards cfg b⟩

/-- Initial generation state at `gateway.spawnShards()`: every shard
unspawned, fresh buckets, no workers, nothing sent. -/
def initState (cfg : GenConfig) : GenState :=
  ⟨List.replicate cfg.totalShards SState.unspawned,
   (List.range cfg.maxConcurrency).map (initBucket cfg),
   [], []⟩

/-- State of shard `s` (out-of-range reads default to `ready` and are never
used under the length invariant). -/
def shardAt (st : GenState) (s : Nat) : SState :=
  st.shards.getD s SState.ready

/-- State of bucket `b` (out-of-range reads default to an empty bucket). -/
def bucketAt (st : GenState) (b : Nat) : Bucket :=
  st.buckets.getD b ⟨none, [], [], []⟩

/-! ### Orchestration transition system

Each event is one atomic pool-side step.  `spawnNext` embeds one call of
`gateway.tellWorkerToIdentify` (get-or-create worker, push onto
`identifyRequests`, post IDENTIFY_SHARD); its serialization per bucket — the
next call happens only once the previous promise of the bucket resolved — is
modelled from the spec.  `toIdentify` embeds the TO_IDENTIFY branch of
`workerListener` together with the grant/enqueue discipline of
`gateway.requestIdentify`, modelled from the spec (section 4.1).  `shardReady`
embeds the SHARD_ON branch of `workerListener` (delay, then shift the head
identify request) together with the release discipline of the scheduler,
modelled from the spec (section 4.1). -/

inductive GEvent where
  | spawnNext (b : Nat)
  | toIdentify (s : Nat)
  | shardReady (s : Nat)
deriving DecidableEq

/-- One atomic orchestration step; `none` when the event is not enabled. -/
def applyEvent (cfg : GenConfig) (st : GenState) : GEvent → Option GenState
  | GEvent.spawnNext b =>
    if b < st.buckets.length then
      match (bucketAt st b).gate, (bucketAt st b).toSpawn with
      | [], s :: rest =>
        some ⟨st.shards.set s SState.pending,
              st.buckets.set b ⟨(bucketAt st b).owner, (bucketAt st b).waiters, [s], rest⟩,
              addWorker st.workers (workerOf cfg s),
              st.sent ++ [(workerOf cfg s, s)]⟩
      | _, _ => none
    else none
  | GEvent.toIdentify s =>
    if s < st.shards.length ∧ shardAt st s = SState.pending then
      match (bucketAt st (concurrency cfg s)).owner with
      | none =>
        some ⟨st.shards.set s SState.identifying,
              st.buckets.set (concurrency cfg s)
                ⟨some s, (bucketAt st (concurrency cfg s)).waiters,
                 (bucketAt st (concurrency cfg s)).gate,
                 (bucketAt st (concurrency cfg s)).toSpawn⟩,
              st.workers, st.sent⟩
      | some _ =>
        some ⟨st.shards.set s SState.waiting,
              st.buckets.set (concurrency cfg s)
                ⟨(bucketAt st (concurrency cfg s)).owner,
                 (bucketAt st (concurrency cfg s)).waiters ++ [s],
                 (bucketAt st (concurrency cfg s)).gate,
                 (bucketAt st (concurrency cfg s)).toSpawn⟩,
              st.workers, st.sent⟩
    else none
  | GEvent.shardReady s =>
    if s < st.shards.length ∧ shardAt st s = SState.identifying then
      match (bucketAt st (concurrency cfg s)).waiters with
      | [] =>
        some ⟨st.shards.set s SState.ready,
              st.buckets.set (concurrency cfg s)
                ⟨none, [],
                 (bucketAt st (concurrency cfg s)).gate.drop 1,
                 (bucketAt st (concurrency cfg s)).toSpawn⟩,
              st.workers, st.sent⟩
      | w :: rest =>
        some ⟨(st.shards.set s SState.ready).set w SState.identifying,
              st.buckets.set (concurrency cfg s)
                ⟨some w, rest,
                 (bucketAt st (concurrency cfg s)).gate.drop 1,
                 (bucketAt st (concurrency cfg s)).toSpawn⟩,
              st.workers, st.sent⟩
    else none

/-- One-step relation of the orchestration system (any enabled event). -/
def StepRel (cfg : GenConfig) (st st2 : GenState) : Prop :=
  ∃ e, applyEvent cfg st e = some st2

/-- States reachable from the initial state of a generation. -/
def Reachable (cfg : GenConfig) (st : GenState) : Prop :=
  Relation.ReflTransGen (StepRel cfg) (initState cfg) st

/-- Whether the deterministic scheduler may fire an event; shards in `stuck`
never report READY (their worker hangs before the READY dispatch). -/
def eventAllowed (stuck : List Nat) : GEvent → Bool
  | GEvent.shardReady s => !(decide (s ∈ stuck))
  | _ => true

/-- All candidate events of a configuration, in a fixed scan order. -/
def enabledEvents (cfg : GenConfig) : List GEvent :=
  ((List.range cfg.maxConcurrency).map GEvent.spawnNext)
    ++ ((List.range cfg.totalShards).map GEvent.toIdentify)
    ++ ((List.range cfg.totalShards).map GEvent.shardReady)

/-- Fire the first allowed, enabled event of the list. -/
def firstStep (cfg : GenConfig) (stuck : List Nat) (st : GenState) :
    List GEvent → Option GenState
  | [] => none
  | e :: es =>
    if eventAllowed stuck e then
      match applyEvent cfg st e with
      | some st2 => some st2
      | none => firstStep cfg stuck st es
    else firstStep cfg stuck st es

/-- Deterministic scheduler step: first allowed enabled event, if any. -/
def stepD (cfg : GenConfig) (stuck : List Nat) (st : GenState) : Option GenState :=
  firstStep cfg stuck st (enabledEvents cfg)

/-- Deterministic run of the orchestration for `n` steps (staying put once no
event is enabled). -/
def runD (cfg : GenConfig) (stuck : List Nat) : Nat → GenState
  | 0 => initState cfg
  | n + 1 =>
    match stepD cfg stuck (runD cfg stuck n) with
    | some st2 => st2
    | none => runD cfg stuck n

/-- Every shard of the generation is Ready. -/
def allReady (cfg : GenConfig) (st : GenState) : Prop :=
  ∀ s ∈ List.range cfg.totalShards, shardAt st s = SState.ready

instance decAllReady (cfg : GenConfig) (st : GenState) : Decidable (allReady cfg st) := by
  unfold allReady
  infer_instance

/-- The set of shards currently in the Identifying state. -/
def identifyingSet (cfg : GenConfig) (st : GenState) : Finset Nat :=
  (Finset.range cfg.totalShards).filter (fun s => shardAt st s = SState.identifying)

/-- Weight of a shard state for the termination measure: each forward
transition of the pipeline strictly decreases it. -/
def stateWeight : SState → Nat
  | SState.unspawned => 4
  | SState.pending => 3
  | SState.waiting => 2
  | SState.identifying => 1
  | SState.ready => 0

/-- Termination measure of a generation state. -/
def genMeasure (st : GenState) : Nat :=
  (st.shards.map stateWeight).sum

/-! ### State invariant -/

/-- Invariant of reachable orchestration states.  The central clauses are
`ownerInv` and `identInv`: a bucket lock is held exactly by the identifying
shards of that bucket, which yields mutual exclusion per bucket. -/
structure Invariant (cfg : GenConfig) (st : GenState) : Prop where
  mcpos : 0 < cfg.maxConcurrency
  lenShards : st.shards.length = cfg.totalShards
  lenBuckets : st.buckets.length = cfg.maxConcurrency
  ownerInv : ∀ b ∈ List.range cfg.maxConcurrency, ∀ s ∈ (bucketAt st b).owner.toList,
    s ∈ List.range cfg.totalShards ∧ s % cfg.maxConcurrency = b ∧
    shardAt st s = SState.identifying
  identInv : ∀ s ∈ List.range cfg.totalShards, shardAt st s = SState.identifying →
    (bucketAt st (s % cfg.maxConcurrency)).owner = some s
  waitInv : ∀ b ∈ List.range cfg.maxConcurrency, ∀ s ∈ (bucketAt st b).waiters,
    s ∈ List.range cfg.totalShards ∧ s % cfg.maxConcurrency = b ∧
    shardAt st s = SState.waiting
  waitingInv : ∀ s ∈ List.range cfg.totalShards, shardAt st s = SState.waiting →
    s ∈ (bucketAt st (s % cfg.maxConcurrency)).waiters
  waitOwner : ∀ b ∈ List.range cfg.maxConcurrency, (bucketAt st b).owner = none →
    (bucketAt st b).waiters = []
  spawnInv : ∀ b ∈ List.range cfg.maxConcurrency, ∀ s ∈ (bucketAt st b).toSpawn,
    s ∈ List.range cfg.totalShards ∧ s % cfg.maxConcurrency = b ∧
    shardAt st s = SState.unspawned
  unspawnedInv : ∀ s ∈ List.range cfg.totalShards, shardAt st s = SState.unspawned →
    s ∈ (bucketAt st (s % cfg.maxConcurrency)).toSpawn
  gateInv : ∀ b ∈ List.range cfg.maxConcurrency, ∀ s ∈ (bucketAt st b).gate,
    s ∈ List.range cfg.totalShards ∧ s % cfg.maxConcurrency = b ∧
    (shardAt st s = SState.pending ∨ shardAt st s = SState.waiting ∨
      shardAt st s = SState.identifying)
  gateLen : ∀ b ∈ List.range cfg.maxConcurrency, (bucketAt st b).gate.length ≤ 1
  nodupWait : ∀ b ∈ List.range cfg.maxConcurrency, (bucketAt st b).waiters.Nodup
  nodupSpawn : ∀ b ∈ List.range cfg.maxConcurrency, (bucketAt st b).toSpawn.Nodup
  sentInv : ∀ s ∈ List.range cfg.totalShards,
    shardAt st s = SState.unspawned ∨ (workerOf cfg s, s) ∈ st.sent

/-! ### Identify bucket scheduler in isolation (spec section 4.1)

Modelled from the spec: `gateway.requestIdentify` and the corresponding
release live inside the discordeno library; the spec gives their contract —
enqueue if an identify of the bucket is in flight, otherwise grant at once;
release pops and grants the head waiter or clears the in-flight flag.  The
waiter queue mirrors the push/shift use of `bucket.identifyRequests` in the
sources. -/

/-- Scheduler state of one bucket: the in-flight flag and the FIFO waiter
queue, holding request ids. -/
structure SchedBucket where
  inFlight : Bool
  waiters : List Nat
deriving DecidableEq

/-- Modelled from the spec: `requestIdentify(bucketId, shardId)`; returns the
new bucket state and whether the request is granted immediately. -/
def requestIdentify (bk : SchedBucket) (r : Nat) : SchedBucket × Bool :=
  if bk.inFlight then (⟨true, bk.waiters ++ [r]⟩, false)
  else (⟨true, bk.waiters⟩, true)

/-- Modelled from the spec: `release(bucketId)`; pops the next waiter (if
any) and grants it, keeping the bucket in flight, or clears the in-flight
flag when the queue is empty. -/
def release (bk : SchedBucket) : SchedBucket × Option Nat :=
  match bk.waiters with
  | [] => (⟨false, []⟩, none)
  | w :: rest => (⟨true, rest⟩, some w)

/-- An operation against one scheduler bucket. -/
inductive SchedOp where
  | req (r : Nat)
  | rel
deriving DecidableEq

/-- Run a sequence of scheduler operations on one bucket; the result is the
list of granted request ids, in grant order. -/
def schedRun (bk : SchedBucket) : List SchedOp → List Nat
  | [] => []
  | SchedOp.req r :: ops =>
    if (requestIdentify bk r).2 then r :: schedRun (requestIdentify bk r).1 ops
    else schedRun (requestIdentify bk r).1 ops
  | SchedOp.rel :: ops =>
    match (release bk).2 with
    | some w => w :: schedRun (release bk).1 ops
    | none => schedRun (release bk).1 ops

/-- The request ids of an operation sequence, in request order. -/
def requestsOf : List SchedOp → List Nat
  | [] => []
  | SchedOp.req r :: ops => r :: requestsOf ops
  | SchedOp.rel :: ops => requestsOf ops

/-- `Before a b l`: `a` occurs strictly before `b` in `l`. -/
def Before (a b : Nat) (l : List Nat) : Prop :=
  ∃ p q r, l = p ++ a :: q ++ b :: r

/-! ### Worker pool message handling (sources) -/

/-- Messages sent from a worker to the pool (the source type
`MessageFromWorker = ShardReady | RequestIdentify`). -/
inductive MessageFromWorker where
  | shardOn (shardId : Nat)
  | toIdentify (shardId : Nat)
deriving DecidableEq

/-- Pool-side actions, in execution order, of one `workerListener` call. -/
inductive PoolAction where
  | delay
  | releaseBucket (b : Nat)
  | requestIdentifySlot (shardId : Nat)
  | allowIdentify (shardId : Nat)
deriving DecidableEq

/-- Embeds `workerListener`: on SHARD_ON the pool waits `spawnShardDelay` and
then releases the bucket of the shard (`identifyRequests.shift()` and the
scheduler release); on TO_IDENTIFY it secures an identify slot and then posts
ALLOW_IDENTIFY. -/
def workerListener (cfg : GenConfig) : MessageFromWorker → List PoolAction
  | MessageFromWorker.shardOn s =>
    [PoolAction.delay, PoolAction.releaseBucket (concurrency cfg s)]
  | MessageFromWorker.toIdentify s =>
    [PoolAction.requestIdentifySlot s, PoolAction.allowIdentify s]

/-! ### Worker creation (sources) -/

/-- A created worker thread: its id, a spawn counter distinguishing the
object created by each `new Worker(...)` call, and the events the pool
registered listeners for. -/
structure WorkerModel where
  workerId : Nat
  spawnCount : Nat
  handledEvents : List String
deriving DecidableEq

/-- Embeds `createWorker(workerId)`: the only listener registered on the new
worker is for "message" events; no exit, error or heartbeat listener exists. -/
def createWorker (workerId : Nat) (spawnCount : Nat) : WorkerModel :=
  ⟨workerId, spawnCount, ["message"]⟩

/-- Number of registered listeners that would fire when the worker process
dies; with no such listener, a crash triggers no pool reaction at all. -/
def crashHandlerCount (w : WorkerModel) : Nat :=
  (w.handledEvents.filter (fun e => e == "exit" || e == "error")).length

/-- Embeds `workers.get(workerId)` on the assoc-list model of the worker
map. -/
def workersGet (m : List (Nat × WorkerModel)) (workerId : Nat) : Option WorkerModel :=
  (m.find? (fun p => p.1 == workerId)).map (fun p => p.2)

/-- Embeds the get-or-create block of `tellWorkerToIdentify`: reuse the
tracked worker, otherwise create one and store it under its id.  `ctr` is the
global spawn counter; it advances exactly when a worker is created. -/
def getOrCreateWorker (m : List (Nat × WorkerModel)) (ctr workerId : Nat) :
    List (Nat × WorkerModel) × WorkerModel × Nat :=
  match workersGet m workerId with
  | some w => (m, w, ctr)
  | none => ((workerId, createWorker workerId ctr) :: m, createWorker workerId ctr, ctr + 1)

/-! ### HTTP control channel (sources) -/

/-- Result of the control-channel request handler: either an HTTP response
with the given status, or the orchestration side effect of forwarding a
member-chunk request to the gateway. -/
inductive GatewayAction where
  | respond (status : Nat)
  | requestMembers (guildId : String)
deriving DecidableEq

/-- An inbound control-channel request: the Authorization header (absent or
present) and the body fields the handler reads. -/
structure ControlRequest where
  authorization : Option String
  bodyType : String
  guildId : String
deriving DecidableEq

/-- JavaScript falsiness of the configured secret `config.gateway.auth`:
unset, or set to the empty string. -/
def authFalsy (o : Option String) : Prop :=
  o = none ∨ o = some ""

instance decAuthFalsy (o : Option String) : Decidable (authFalsy o) := by
  unfold authFalsy
  infer_instance

/-- Embeds the `app.all` handler of the control channel: requests failing
`config.gateway.auth && auth === req.headers.authorization` get status 401;
authenticated requests dispatch on `req.body.type`, where only
REQUEST_MEMBERS is known and anything else gets status 404. -/
def handleControlRequest (auth : Option String) (req : ControlRequest) : GatewayAction :=
  if authFalsy auth ∨ req.authorization ≠ auth then GatewayAction.respond 401
  else if req.bodyType = "REQUEST_MEMBERS" then GatewayAction.requestMembers req.guildId
  else GatewayAction.respond 404

/-! ### Recluster (spec section 4.4) -/

/-- A bucket of the generation holds an identify in flight. -/
def inFlightBucket (st : GenState) (b : Nat) : Prop :=
  (bucketAt st b).owner ≠ none

instance decInFlightBucket (st : GenState) (b : Nat) : Decidable (inFlightBucket st b) := by
  unfold inFlightBucket
  infer_instance

/-- Modelled from the spec: the manager-side `bot.restart()` reached through
`evalOnManager` in the developer reload command is not part of the sources;
per spec section 4.4 a recluster runs generation N+1 through the ordinary
startup sequence with a fresh scheduler.  `newGenState cfg i` is the state of
generation N+1 after `i` startup steps. -/
def newGenState (cfg : GenConfig) (i : Nat) : GenState :=
  runD cfg [] i

/-- Modelled from the spec: the stop signal to generation N is emitted only
once the startup run of generation N+1 has completed, i.e. after
`4 * totalShards` deterministic steps (the bound at which the run provably
reaches all-Ready). -/
def reclusterStopIndex (cfg : GenConfig) : Nat :=
  4 * cfg.totalShards

/-! ### List helper lemmas -/

theorem getD_set_self {α : Type} : ∀ (l : List α) (i : Nat) (v d : α), i < l.length →
    (l.set i v).getD i d = v := by
  intro l
  induction l with
  | nil => intro i v d h; simp at h
  | cons x t ih =>
    intro i v d h
    cases i with
    | zero => rfl
    | succ j => simpa using ih j v d (by simpa using h)

theorem getD_set_ne {α : Type} : ∀ (l : List α) (i j : Nat) (v d : α), i ≠ j →
    (l.set i v).getD j d = l.getD j d := by
  intro l
  induction l with
  | nil => intro i j v d _; simp [List.set]
  | cons x t ih =>
    intro i j v d h
    cases i with
    | zero =>
      cases j with
      | zero => exact absurd rfl h
      | succ k => rfl
    | succ i2 =>
      cases j with
      | zero => rfl
      | succ k => simpa using ih i2 k v d (fun he => h (by rw [he]))

theorem getD_map_range {α : Type} (f : Nat → α) : ∀ (n b : Nat) (d : α), b < n →
    ((List.range n).map f).getD b d = f b := by
  intro n b d h
  rw [List.getD_eq_getElem?_getD, List.getElem?_map, List.getElem?_range h]
  rfl

theorem getD_replicate {α : Type} : ∀ (n s : Nat) (a d : α), s < n →
    (List.replicate n a).getD s d = a := by
  intro n
  induction n with
  | zero => intro s a d h; simp at h
  | succ m ih =>
    intro s a d h
    cases s with
    | zero => rfl
    | succ k => simpa [List.replicate] using ih k a d (by omega)

theorem sum_map_set (f : SState → Nat) : ∀ (l : List SState) (i : Nat) (v d : SState),
    i < l.length →
    ((l.set i v).map f).sum + f (l.getD i d) = (l.map f).sum + f v := by
  intro l
  induction l with
  | nil => intro i v d h; simp at h
  | cons x t ih =>
    intro i v d h
    cases i with
    | zero => simp [List.set]; omega
    | succ j =>
      have h2 := ih j v d (by simpa using h)
      simp [List.set] at h2 ⊢
      omega

/-! ### Ordering machinery for the FIFO property -/

theorem before_mem_left {a b : Nat} {l : List Nat} (h : Before a b l) : a ∈ l := by
  obtain ⟨p, q, r, rfl⟩ := h
  simp

theorem before_mem_right {a b : Nat} {l : List Nat} (h : Before a b l) : b ∈ l := by
  obtain ⟨p, q, r, rfl⟩ := h
  simp

theorem before_head {b x : Nat} {t : List Nat} (h : b ∈ t) : Before x b (x :: t) := by
  obtain ⟨s, u, rfl⟩ := List.append_of_mem h
  exact ⟨[], s, u, rfl⟩

theorem before_cons {a b x : Nat} {t : List Nat} (h : Before a b t) : Before a b (x :: t) := by
  obtain ⟨p, q, r, rfl⟩ := h
  exact ⟨x :: p, q, r, rfl⟩

theorem before_cons_inv {a b x : Nat} {t : List Nat} (h : Before a b (x :: t)) :
    (a = x ∧ b ∈ t) ∨ Before a b t := by
  obtain ⟨p, q, r, hpq⟩ := h
  cases p with
  | nil =>
    injection hpq with h1 h2
    exact Or.inl ⟨h1.symm, by rw [h2]; simp⟩
  | cons y p2 =>
    injection hpq with h1 h2
    exact Or.inr ⟨p2, q, r, h2⟩

theorem sublist_before {l1 l2 : List Nat} (h : l1.Sublist l2) :
    ∀ {a b : Nat}, Before a b l1 → Before a b l2 := by
  induction h with
  | slnil =>
    intro a b hb
    obtain ⟨p, q, r, hpq⟩ := hb
    cases p <;> simp at hpq
  | cons x h ih =>
    intro a b hb
    exact before_cons (ih hb)
  | cons₂ x h ih =>
    intro a b hb
    rcases before_cons_inv hb with ⟨rfl, hbt⟩ | hbt
    · exact before_head (h.subset hbt)
    · exact before_cons (ih hbt)

theorem before_total : ∀ {l : List Nat} {a b : Nat}, a ∈ l → b ∈ l → a ≠ b →
    Before a b l ∨ Before b a l := by
  intro l
  induction l with
  | nil => intro a b ha _ _; simp at ha
  | cons x t ih =>
    intro a b ha hb hne
    rcases List.mem_cons.mp ha with rfl | hat
    · have hbt : b ∈ t := by
        rcases List.mem_cons.mp hb with rfl | h2
        · exact absurd rfl hne
        · exact h2
      exact Or.inl (before_head hbt)
    · rcases List.mem_cons.mp hb with rfl | hbt
      · exact Or.inr (before_head hat)
      · rcases ih hat hbt hne with h2 | h2
        · exact Or.inl (before_cons h2)
        · exact Or.inr (before_cons h2)

theorem before_asymm : ∀ {l : List Nat}, l.Nodup → ∀ {a b : Nat}, Before a b l →
    ¬ Before b a l := by
  intro l
  induction l with
  | nil =>
    intro _ a b hab
    obtain ⟨p, q, r, hpq⟩ := hab
    cases p <;> simp at hpq
  | cons x t ih =>
    intro hnd a b hab hba
    have hxt : x ∉ t := (List.nodup_cons.mp hnd).1
    have hndt : t.Nodup := (List.nodup_cons.mp hnd).2
    rcases before_cons_inv hab with ⟨rfl, hbt⟩ | habt
    · rcases before_cons_inv hba with ⟨rfl, hat⟩ | hbat
      · exact hxt hbt
      · exact hxt (before_mem_right hbat)
    · rcases before_cons_inv hba with ⟨rfl, hat⟩ | hbat
      · exact hxt (before_mem_right habt)
      · exact ih hndt habt hbat

/-! ### Scheduler FIFO -/

theorem schedRun_sublist : ∀ (ops : List SchedOp) (bk : SchedBucket),
    (bk.inFlight = false → bk.waiters = []) →
    (schedRun bk ops).Sublist (bk.waiters ++ requestsOf ops) := by
  intro ops
  induction ops with
  | nil => intro bk _; simp [schedRun, requestsOf]
  | cons op ops ih =>
    intro bk hbk
    cases op with
    | req r =>
      cases hf : bk.inFlight with
      | true =>
        have heq : schedRun bk (SchedOp.req r :: ops) =
            schedRun ⟨true, bk.waiters ++ [r]⟩ ops := by
          simp [schedRun, requestIdentify, hf]
        rw [heq]
        have h2 := ih ⟨true, bk.waiters ++ [r]⟩ (by intro h; cases h)
        simp only [requestsOf]
        simpa [List.append_assoc] using h2
      | false =>
        have hw := hbk hf
        have heq : schedRun bk (SchedOp.req r :: ops) =
            r :: schedRun ⟨true, bk.waiters⟩ ops := by
          simp [schedRun, requestIdentify, hf]
        rw [heq, hw]
        simp only [requestsOf, hw, List.nil_append]
        exact List.Sublist.cons₂ r (by simpa using ih ⟨true, []⟩ (fun _ => rfl))
    | rel =>
      cases hw : bk.waiters with
      | nil =>
        have heq : schedRun bk (SchedOp.rel :: ops) = schedRun ⟨false, []⟩ ops := by
          simp [schedRun, release, hw]
        rw [heq]
        simp only [requestsOf, List.nil_append]
        simpa using ih ⟨false, []⟩ (fun _ => rfl)
      | cons w rest =>
        have heq : schedRun bk (SchedOp.rel :: ops) = w :: schedRun ⟨true, rest⟩ ops := by
          simp [schedRun, release, hw]
        rw [heq]
        simp only [requestsOf, List.cons_append]
        exact List.Sublist.cons₂ w (by simpa using ih ⟨true, rest⟩ (by intro h; cases h))

/-! ### Claim theorems: scheduler, worker pool and control channel -/

/-- C2: within one bucket, identify grants are strictly FIFO by request
order: the grant sequence is a subsequence of the request sequence, and any
two granted requests are granted in the order they were enqueued. -/
theorem identify_grants_fifo :
    ∀ ops : List SchedOp, (requestsOf ops).Nodup →
      (schedRun ⟨false, []⟩ ops).Sublist (requestsOf ops) ∧
      ∀ r1 r2, Before r1 r2 (requestsOf ops) →
        r1 ∈ schedRun ⟨false, []⟩ ops → r2 ∈ schedRun ⟨false, []⟩ ops →
        Before r1 r2 (schedRun ⟨false, []⟩ ops) := by
  intro ops hnd
  have hsub : (schedRun ⟨false, []⟩ ops).Sublist (requestsOf ops) := by
    simpa using schedRun_sublist ops ⟨false, []⟩ (fun _ => rfl)
  refine ⟨hsub, ?_⟩
  intro r1 r2 hb h1 h2
  have hne : r1 ≠ r2 := by
    intro he
    rw [he] at hb
    exact before_asymm hnd hb hb
  by_contra hnb
  rcases before_total h1 h2 hne with hb2 | hb2
  · exact hnb hb2
  · exact before_asymm hnd hb (sublist_before hsub hb2)

/-- Witness for C2: a concrete operation sequence with two requests for the
same bucket, granted in request order. -/
theorem identify_grants_fifo_witness :
    (requestsOf [SchedOp.req 5, SchedOp.req 9, SchedOp.rel, SchedOp.rel]).Nodup ∧
    ((schedRun ⟨false, []⟩ [SchedOp.req 5, SchedOp.req 9, SchedOp.rel, SchedOp.rel]).Sublist
        (requestsOf [SchedOp.req 5, SchedOp.req 9, SchedOp.rel, SchedOp.rel]) ∧
      ∀ r1 r2,
        Before r1 r2 (requestsOf [SchedOp.req 5, SchedOp.req 9, SchedOp.rel, SchedOp.rel]) →
        r1 ∈ schedRun ⟨false, []⟩ [SchedOp.req 5, SchedOp.req 9, SchedOp.rel, SchedOp.rel] →
        r2 ∈ schedRun ⟨false, []⟩ [SchedOp.req 5, SchedOp.req 9, SchedOp.rel, SchedOp.rel] →
        Before r1 r2
          (schedRun ⟨false, []⟩ [SchedOp.req 5, SchedOp.req 9, SchedOp.rel, SchedOp.rel])) :=
  ⟨by decide,
   identify_grants_fifo [SchedOp.req 5, SchedOp.req 9, SchedOp.rel, SchedOp.rel] (by decide)⟩

/-- C4: on SHARD_ON the pool first waits the fixed spawnShardDelay and then
releases the bucket of the shard; releasing with an empty waiter queue clears
the in-flight flag, releasing with a non-empty queue immediately grants the
head waiter and keeps the bucket in flight. -/
theorem shard_on_release_semantics :
    ∀ (cfg : GenConfig) (s : Nat),
      workerListener cfg (MessageFromWorker.shardOn s) =
        [PoolAction.delay, PoolAction.releaseBucket (concurrency cfg s)] ∧
      (∀ f : Bool, release ⟨f, []⟩ = (⟨false, []⟩, none)) ∧
      (∀ (f : Bool) (w : Nat) (rest : List Nat),
        release ⟨f, w :: rest⟩ = (⟨true, rest⟩, some w)) :=
  fun _ _ => ⟨rfl, fun _ => rfl, fun _ _ _ => rfl⟩

/-- C5 counterexample: the pool registers no process-exit or error listener
on a created worker, so a worker crash fires zero handlers — not exactly one
respawn. -/
theorem worker_crash_no_respawn_counterexample :
    crashHandlerCount (createWorker 0 0) = 0 ∧ crashHandlerCount (createWorker 0 0) ≠ 1 ∧
    ¬ ("exit" ∈ (createWorker 0 0).handledEvents) := by
  decide

/-- C5 amended: createWorker registers only a message listener; no crash
handler exists, so a worker crash triggers no respawn and no shard or bucket
state change. -/
theorem worker_crash_no_handlers :
    ∀ workerId spawnCount : Nat,
      (createWorker workerId spawnCount).handledEvents = ["message"] ∧
      crashHandlerCount (createWorker workerId spawnCount) = 0 :=
  fun _ _ => ⟨rfl, rfl⟩

/-- C9: worker creation is idempotent per workerId — an existing worker is
reused unchanged; a missing worker is created exactly once and stored under
its id; a repeated request for the same workerId returns the stored worker
and spawns nothing new. -/
theorem worker_creation_idempotent :
    ∀ (m : List (Nat × WorkerModel)) (ctr workerId : Nat),
      (∀ w, workersGet m workerId = some w → getOrCreateWorker m ctr workerId = (m, w, ctr)) ∧
      (workersGet m workerId = none →
        getOrCreateWorker m ctr workerId =
          ((workerId, createWorker workerId ctr) :: m, createWorker workerId ctr, ctr + 1) ∧
        workersGet ((workerId, createWorker workerId ctr) :: m) workerId =
          some (createWorker workerId ctr)) ∧
      getOrCreateWorker (getOrCreateWorker m ctr workerId).1
          (getOrCreateWorker m ctr workerId).2.2 workerId =
        getOrCreateWorker m ctr workerId := by
  intro m ctr workerId
  have hcons : ∀ w : WorkerModel,
      workersGet ((workerId, w) :: m) workerId = some w := by
    intro w
    unfold workersGet
    rw [List.find?_cons_of_pos _ (by simp)]
    rfl
  refine ⟨?_, ?_, ?_⟩
  · intro w hw
    unfold getOrCreateWorker
    rw [hw]
  · intro hn
    constructor
    · unfold getOrCreateWorker
      rw [hn]
    · exact hcons _
  · cases hw : workersGet m workerId with
    | some w =>
      simp only [getOrCreateWorker, hw]
    | none =>
      simp only [getOrCreateWorker, hw, hcons (createWorker workerId ctr)]

/-- Witness for C9: creating worker 7 in an empty pool stores it; the stored
worker is found afterwards. -/
theorem worker_creation_idempotent_witness :
    getOrCreateWorker [] 0 7 = ([(7, createWorker 7 0)], createWorker 7 0, 1) ∧
    workersGet [(7, createWorker 7 0)] 7 = some (createWorker 7 0) :=
  (worker_creation_idempotent [] 0 7).2.1 (by decide)

/-- C8: a control-channel request whose Authorization header differs from the
configured secret gets status 401; an authenticated request with an unknown
body type gets status 404; neither performs the member-request side effect. -/
theorem control_channel_auth_rejections :
    ∀ (auth : Option String) (req : ControlRequest),
      (req.authorization ≠ auth →
        handleControlRequest auth req = GatewayAction.respond 401 ∧
        ∀ g, handleControlRequest auth req ≠ GatewayAction.requestMembers g) ∧
      (¬ authFalsy auth → req.authorization = auth → req.bodyType ≠ "REQUEST_MEMBERS" →
        handleControlRequest auth req = GatewayAction.respond 404 ∧
        ∀ g, handleControlRequest auth req ≠ GatewayAction.requestMembers g) := by
  intro auth req
  constructor
  · intro hne
    have h : handleControlRequest auth req = GatewayAction.respond 401 := by
      unfold handleControlRequest
      rw [if_pos (Or.inr hne)]
    refine ⟨h, fun g hg => ?_⟩
    rw [h] at hg
    exact GatewayAction.noConfusion hg
  · intro hf heq hty
    have hneg : ¬ (authFalsy auth ∨ req.authorization ≠ auth) := by
      rintro (h1 | h2)
      · exact hf h1
      · exact h2 heq
    have h : handleControlRequest auth req = GatewayAction.respond 404 := by
      unfold handleControlRequest
      rw [if_neg hneg, if_neg hty]
    refine ⟨h, fun g hg => ?_⟩
    rw [h] at hg
    exact GatewayAction.noConfusion hg

/-- Witness for C8: a wrong secret gets 401, an authenticated unknown command
gets 404. -/
theorem control_channel_auth_rejections_witness :
    (handleControlRequest (some "k") ⟨some "x", "REQUEST_MEMBERS", "g"⟩ =
      GatewayAction.respond 401) ∧
    (handleControlRequest (some "k") ⟨some "k", "STATUS", "g"⟩ =
      GatewayAction.respond 404) :=
  ⟨((control_channel_auth_rejections (some "k") ⟨some "x", "REQUEST_MEMBERS", "g"⟩).1
      (by decide)).1,
   ((control_channel_auth_rejections (some "k") ⟨some "k", "STATUS", "g"⟩).2
      (by decide) rfl (by decide)).1⟩

/-- C10: with the control-channel secret unset or empty, every request is
rejected with status 401 — including a request whose Authorization header
exactly equals the empty configured value. -/
theorem empty_auth_rejects_all :
    ∀ (req : ControlRequest) (t g : String),
      handleControlRequest none req = GatewayAction.respond 401 ∧
      handleControlRequest (some "") req = GatewayAction.respond 401 ∧
      handleControlRequest (some "") ⟨some "", t, g⟩ = GatewayAction.respond 401 := by
  intro req t g
  refine ⟨?_, ?_, ?_⟩
  · have hc : authFalsy none ∨ req.authorization ≠ none := Or.inl (Or.inl rfl)
    unfold handleControlRequest
    rw [if_pos hc]
  · have hc : authFalsy (some "") ∨ req.authorization ≠ some "" := Or.inl (Or.inr rfl)
    unfold handleControlRequest
    rw [if_pos hc]
  · have hc : authFalsy (some "") ∨
        (⟨some "", t, g⟩ : ControlRequest).authorization ≠ some "" := Or.inl (Or.inr rfl)
    unfold handleControlRequest
    rw [if_pos hc]

/-! ### Frame lemmas for state access -/

theorem shardAt_mk (l : List SState) (bs : List Bucket) (ws : List Nat)
    (sn : List (Nat × Nat)) (s : Nat) :
    shardAt ⟨l, bs, ws, sn⟩ s = l.getD s SState.ready := rfl

theorem bucketAt_mk (l : List SState) (bs : List Bucket) (ws : List Nat)
    (sn : List (Nat × Nat)) (b : Nat) :
    bucketAt ⟨l, bs, ws, sn⟩ b = bs.getD b ⟨none, [], [], []⟩ := rfl

theorem shardAt_set_of_ne (st : GenState) (bs : List Bucket) (ws : List Nat)
    (sn : List (Nat × Nat)) (s u : Nat) (v : SState) (h : u ≠ s) :
    shardAt ⟨st.shards.set s v, bs, ws, sn⟩ u = shardAt st u := by
  rw [shardAt_mk, getD_set_ne st.shards s u v SState.ready (fun he => h he.symm)]
  rfl

theorem shardAt_set_self_mk (st : GenState) (bs : List Bucket) (ws : List Nat)
    (sn : List (Nat × Nat)) (s : Nat) (v : SState) (h : s < st.shards.length) :
    shardAt ⟨st.shards.set s v, bs, ws, sn⟩ s = v := by
  rw [shardAt_mk]
  exact getD_set_self st.shards s v SState.ready h

theorem bucketAt_set_of_ne (st : GenState) (l : List SState) (ws : List Nat)
    (sn : List (Nat × Nat)) (b b2 : Nat) (bk : Bucket) (h : b2 ≠ b) :
    bucketAt ⟨l, st.buckets.set b bk, ws, sn⟩ b2 = bucketAt st b2 := by
  rw [bucketAt_mk, getD_set_ne st.buckets b b2 bk ⟨none, [], [], []⟩ (fun he => h he.symm)]
  rfl

theorem bucketAt_set_self_mk (st : GenState) (l : List SState) (ws : List Nat)
    (sn : List (Nat × Nat)) (b : Nat) (bk : Bucket) (h : b < st.buckets.length) :
    bucketAt ⟨l, st.buckets.set b bk, ws, sn⟩ b = bk := by
  rw [bucketAt_mk]
  exact getD_set_self st.buckets b bk ⟨none, [], [], []⟩ h

/-! ### Invariant preservation -/

theorem inv_spawnNext (cfg : GenConfig) (st st2 : GenState) (b : Nat)
    (hInv : Invariant cfg st) (h : applyEvent cfg st (GEvent.spawnNext b) = some st2) :
    Invariant cfg st2 := by
  simp only [applyEvent] at h
  split at h
  case isFalse => exact Option.noConfusion h
  case isTrue hb =>
    split at h
    case h_2 => exact Option.noConfusion h
    case h_1 s rest hgate hts =>
      have hst := Option.some.inj h
      subst hst
      have hbm : b ∈ List.range cfg.maxConcurrency :=
        List.mem_range.mpr (hInv.lenBuckets ▸ hb)
      obtain ⟨hsn, hsb, hsu⟩ :=
        hInv.spawnInv b hbm s (by rw [hts]; exact List.mem_cons_self s rest)
      have hslen : s < st.shards.length := by
        rw [hInv.lenShards]
        exact List.mem_range.mp hsn
      have hsnr : s ∉ rest := by
        have := hInv.nodupSpawn b hbm
        rw [hts] at this
        exact (List.nodup_cons.mp this).1
      have hshardS :
          shardAt ⟨st.shards.set s SState.pending,
            st.buckets.set b ⟨(bucketAt st b).owner, (bucketAt st b).waiters, [s], rest⟩,
            addWorker st.workers (workerOf cfg s),
            st.sent ++ [(workerOf cfg s, s)]⟩ s = SState.pending :=
        shardAt_set_self_mk st _ _ _ s SState.pending hslen
      have hshard : ∀ u, u ≠ s →
          shardAt ⟨st.shards.set s SState.pending,
            st.buckets.set b ⟨(bucketAt st b).owner, (bucketAt st b).waiters, [s], rest⟩,
            addWorker st.workers (workerOf cfg s),
            st.sent ++ [(workerOf cfg s, s)]⟩ u = shardAt st u :=
        fun u hu => shardAt_set_of_ne st _ _ _ s u SState.pending hu
      have hbucketB :
          bucketAt ⟨st.shards.set s SState.pending,
            st.buckets.set b ⟨(bucketAt st b).owner, (bucketAt st b).waiters, [s], rest⟩,
            addWorker st.workers (workerOf cfg s),
            st.sent ++ [(workerOf cfg s, s)]⟩ b =
          ⟨(bucketAt st b).owner, (bucketAt st b).waiters, [s], rest⟩ :=
        bucketAt_set_self_mk st _ _ _ b _ hb
      have hbucket : ∀ b2, b2 ≠ b →
          bucketAt ⟨st.shards.set s SState.pending,
            st.buckets.set b ⟨(bucketAt st b).owner, (bucketAt st b).waiters, [s], rest⟩,
            addWorker st.workers (workerOf cfg s),
            st.sent ++ [(workerOf cfg s, s)]⟩ b2 = bucketAt st b2 :=
        fun b2 h2 => bucketAt_set_of_ne st _ _ _ b b2 _ h2
      refine ⟨hInv.mcpos, ?_, ?_, ?_, ?_, ?_, ?_, ?_, ?_, ?_, ?_, ?_, ?_, ?_, ?_⟩
      · simpa using hInv.lenShards
      · simpa using hInv.lenBuckets
      · -- ownerInv
        intro b2 hb2 u hu
        by_cases hbb : b2 = b
        · subst hbb
          rw [hbucketB] at hu
          obtain ⟨hun, hub, hui⟩ := hInv.ownerInv b2 hb2 u hu
          have hus : u ≠ s := fun he => by rw [he, hsu] at hui; cases hui
          exact ⟨hun, hub, by rw [hshard u hus]; exact hui⟩
        · rw [hbucket b2 hbb] at hu
          obtain ⟨hun, hub, hui⟩ := hInv.ownerInv b2 hb2 u hu
          have hus : u ≠ s := fun he => by rw [he, hsu] at hui; cases hui
          exact ⟨hun, hub, by rw [hshard u hus]; exact hui⟩
      · -- identInv
        intro u hun hui
        have hus : u ≠ s := fun he => by rw [he, hshardS] at hui; cases hui
        rw [hshard u hus] at hui
        have hold := hInv.identInv u hun hui
        by_cases hbb : u % cfg.maxConcurrency = b
        · rw [hbb, hbucketB]
          rw [hbb] at hold
          exact hold
        · rw [hbucket _ hbb]
          exact hold
      · -- waitInv
        intro b2 hb2 u hu
        by_cases hbb : b2 = b
        · subst hbb
          rw [hbucketB] at hu
          obtain ⟨hun, hub, huw⟩ := hInv.waitInv b2 hb2 u hu
          have hus : u ≠ s := fun he => by rw [he, hsu] at huw; cases huw
          exact ⟨hun, hub, by rw [hshard u hus]; exact huw⟩
        · rw [hbucket b2 hbb] at hu
          obtain ⟨hun, hub, huw⟩ := hInv.waitInv b2 hb2 u hu
          have hus : u ≠ s := fun he => by rw [he, hsu] at huw; cases huw
          exact ⟨hun, hub, by rw [hshard u hus]; exact huw⟩
      · -- waitingInv
        intro u hun huw
        have hus : u ≠ s := fun he => by rw [he, hshardS] at huw; cases huw
        rw [hshard u hus] at huw
        have hold := hInv.waitingInv u hun huw
        by_cases hbb : u % cfg.maxConcurrency = b
        · rw [hbb, hbucketB]
          rw [hbb] at hold
          exact hold
        · rw [hbucket _ hbb]
          exact hold
      · -- waitOwner
        intro b2 hb2 hnone
        by_cases hbb : b2 = b
        · subst hbb
          rw [hbucketB] at hnone ⊢
          exact hInv.waitOwner b2 hb2 hnone
        · rw [hbucket b2 hbb] at hnone ⊢
          exact hInv.waitOwner b2 hb2 hnone
      · -- spawnInv
        intro b2 hb2 u hu
        by_cases hbb : b2 = b
        · subst hbb
          rw [hbucketB] at hu
          have humem : u ∈ (bucketAt st b2).toSpawn := by
            rw [hts]
            exact List.mem_cons_of_mem s hu
          obtain ⟨hun, hub, huu⟩ := hInv.spawnInv b2 hb2 u humem
          have hus : u ≠ s := fun he => hsnr (he ▸ hu)
          exact ⟨hun, hub, by rw [hshard u hus]; exact huu⟩
        · rw [hbucket b2 hbb] at hu
          obtain ⟨hun, hub, huu⟩ := hInv.spawnInv b2 hb2 u hu
          have hus : u ≠ s := fun he => hbb (by rw [← hub, he, hsb])
          exact ⟨hun, hub, by rw [hshard u hus]; exact huu⟩
      · -- unspawnedInv
        intro u hun huu
        have hus : u ≠ s := fun he => by rw [he, hshardS] at huu; cases huu
        rw [hshard u hus] at huu
        have hold := hInv.unspawnedInv u hun huu
        by_cases hbb : u % cfg.maxConcurrency = b
        · rw [hbb, hbucketB]
          rw [hbb, hts] at hold
          rcases List.mem_cons.mp hold with he | he
          · exact absurd he hus
          · exact he
        · rw [hbucket _ hbb]
          exact hold
      · -- gateInv
        intro b2 hb2 u hu
        by_cases hbb : b2 = b
        · subst hbb
          rw [hbucketB] at hu
          have hue : u = s := by simpa using hu
          subst hue
          exact ⟨hsn, hsb, Or.inl hshardS⟩
        · rw [hbucket b2 hbb] at hu
          obtain ⟨hun, hub, hust⟩ := hInv.gateInv b2 hb2 u hu
          have hus : u ≠ s := by
            intro he
            rcases hust with h1 | h1 | h1 <;> rw [he, hsu] at h1 <;> cases h1
          refine ⟨hun, hub, ?_⟩
          rw [hshard u hus]
          exact hust
      · -- gateLen
        intro b2 hb2
        by_cases hbb : b2 = b
        · subst hbb
          rw [hbucketB]
          exact Nat.le_refl 1
        · rw [hbucket b2 hbb]
          exact hInv.gateLen b2 hb2
      · -- nodupWait
        intro b2 hb2
        by_cases hbb : b2 = b
        · subst hbb
          rw [hbucketB]
          exact hInv.nodupWait b2 hb2
        · rw [hbucket b2 hbb]
          exact hInv.nodupWait b2 hb2
      · -- nodupSpawn
        intro b2 hb2
        by_cases hbb : b2 = b
        · subst hbb
          rw [hbucketB]
          have := hInv.nodupSpawn b2 hb2
          rw [hts] at this
          exact (List.nodup_cons.mp this).2
        · rw [hbucket b2 hbb]
          exact hInv.nodupSpawn b2 hb2
      · -- sentInv
        intro u hun
        by_cases hus : u = s
        · subst hus
          right
          exact List.mem_append_right _ (List.mem_singleton.mpr rfl)
        · rcases hInv.sentInv u hun with h1 | h1
          · left
            rw [hshard u hus]
            exact h1
          · right
            exact List.mem_append_left _ h1

theorem inv_toIdentify (cfg : GenConfig) (st st2 : GenState) (s : Nat)
    (hInv : Invariant cfg st) (h : applyEvent cfg st (GEvent.toIdentify s) = some st2) :
    Invariant cfg st2 := by
  simp only [applyEvent, concurrency] at h
  split at h
  case isFalse => exact Option.noConfusion h
  case isTrue hcond =>
    obtain ⟨hslen, hsp⟩ := hcond
    have hsn : s ∈ List.range cfg.totalShards :=
      List.mem_range.mpr (hInv.lenShards ▸ hslen)
    have hblt : s % cfg.maxConcurrency < st.buckets.length := by
      rw [hInv.lenBuckets]
      exact Nat.mod_lt s hInv.mcpos
    split at h
    case h_1 hown =>
      have hst := Option.some.inj h
      subst hst
      have hshardS :
          shardAt ⟨st.shards.set s SState.identifying,
            st.buckets.set (s % cfg.maxConcurrency)
              ⟨some s, (bucketAt st (s % cfg.maxConcurrency)).waiters,
               (bucketAt st (s % cfg.maxConcurrency)).gate,
               (bucketAt st (s % cfg.maxConcurrency)).toSpawn⟩,
            st.workers, st.sent⟩ s = SState.identifying :=
        shardAt_set_self_mk st _ _ _ s SState.identifying hslen
      have hshard : ∀ u, u ≠ s →
          shardAt ⟨st.shards.set s SState.identifying,
            st.buckets.set (s % cfg.maxConcurrency)
              ⟨some s, (bucketAt st (s % cfg.maxConcurrency)).waiters,
               (bucketAt st (s % cfg.maxConcurrency)).gate,
               (bucketAt st (s % cfg.maxConcurrency)).toSpawn⟩,
            st.workers, st.sent⟩ u = shardAt st u :=
        fun u hu => shardAt_set_of_ne st _ _ _ s u SState.identifying hu
      have hbucketB :
          bucketAt ⟨st.shards.set s SState.identifying,
            st.buckets.set (s % cfg.maxConcurrency)
              ⟨some s, (bucketAt st (s % cfg.maxConcurrency)).waiters,
               (bucketAt st (s % cfg.maxConcurrency)).gate,
               (bucketAt st (s % cfg.maxConcurrency)).toSpawn⟩,
            st.workers, st.sent⟩ (s % cfg.maxConcurrency) =
          ⟨some s, (bucketAt st (s % cfg.maxConcurrency)).waiters,
           (bucketAt st (s % cfg.maxConcurrency)).gate,
           (bucketAt st (s % cfg.maxConcurrency)).toSpawn⟩ :=
        bucketAt_set_self_mk st _ _ _ (s % cfg.maxConcurrency) _ hblt
      have hbucket : ∀ b2, b2 ≠ s % cfg.maxConcurrency →
          bucketAt ⟨st.shards.set s SState.identifying,
            st.buckets.set (s % cfg.maxConcurrency)
              ⟨some s, (bucketAt st (s % cfg.maxConcurrency)).waiters,
               (bucketAt st (s % cfg.maxConcurrency)).gate,
               (bucketAt st (s % cfg.maxConcurrency)).toSpawn⟩,
            st.workers, st.sent⟩ b2 = bucketAt st b2 :=
        fun b2 h2 => bucketAt_set_of_ne st _ _ _ (s % cfg.maxConcurrency) b2 _ h2
      refine ⟨hInv.mcpos, ?_, ?_, ?_, ?_, ?_, ?_, ?_, ?_, ?_, ?_, ?_, ?_, ?_, ?_⟩
      · simpa using hInv.lenShards
      · simpa using hInv.lenBuckets
      · -- ownerInv
        intro b2 hb2 u hu
        by_cases hbb : b2 = s % cfg.maxConcurrency
        · subst hbb
          rw [hbucketB] at hu
          have hue : u = s := by simpa using hu
          subst hue
          exact ⟨hsn, rfl, hshardS⟩
        · rw [hbucket b2 hbb] at hu
          obtain ⟨hun, hub, hui⟩ := hInv.ownerInv b2 hb2 u hu
          have hus : u ≠ s := fun he => by rw [he, hsp] at hui; cases hui
          exact ⟨hun, hub, by rw [hshard u hus]; exact hui⟩
      · -- identInv
        intro u hun hui
        by_cases hus : u = s
        · subst hus
          rw [hbucketB]
        · rw [hshard u hus] at hui
          have hold := hInv.identInv u hun hui
          by_cases hbb : u % cfg.maxConcurrency = s % cfg.maxConcurrency
          · rw [hbb] at hold
            rw [hown] at hold
            cases hold
          · rw [hbucket _ hbb]
            exact hold
      · -- waitInv
        intro b2 hb2 u hu
        by_cases hbb : b2 = s % cfg.maxConcurrency
        · subst hbb
          rw [hbucketB] at hu
          obtain ⟨hun, hub, huw⟩ := hInv.waitInv _ hb2 u hu
          have hus : u ≠ s := fun he => by rw [he, hsp] at huw; cases huw
          exact ⟨hun, hub, by rw [hshard u hus]; exact huw⟩
        · rw [hbucket b2 hbb] at hu
          obtain ⟨hun, hub, huw⟩ := hInv.waitInv b2 hb2 u hu
          have hus : u ≠ s := fun he => by rw [he, hsp] at huw; cases huw
          exact ⟨hun, hub, by rw [hshard u hus]; exact huw⟩
      · -- waitingInv
        intro u hun huw
        have hus : u ≠ s := fun he => by rw [he, hshardS] at huw; cases huw
        rw [hshard u hus] at huw
        have hold := hInv.waitingInv u hun huw
        by_cases hbb : u % cfg.maxConcurrency = s % cfg.maxConcurrency
        · rw [hbb, hbucketB]
          rw [hbb] at hold
          exact hold
        · rw [hbucket _ hbb]
          exact hold
      · -- waitOwner
        intro b2 hb2 hnone
        by_cases hbb : b2 = s % cfg.maxConcurrency
        · subst hbb
          rw [hbucketB] at hnone
          cases hnone
        · rw [hbucket b2 hbb] at hnone ⊢
          exact hInv.waitOwner b2 hb2 hnone
      · -- spawnInv
        intro b2 hb2 u hu
        by_cases hbb : b2 = s % cfg.maxConcurrency
        · subst hbb
          rw [hbucketB] at hu
          obtain ⟨hun, hub, huu⟩ := hInv.spawnInv _ hb2 u hu
          have hus : u ≠ s := fun he => by rw [he, hsp] at huu; cases huu
          exact ⟨hun, hub, by rw [hshard u hus]; exact huu⟩
        · rw [hbucket b2 hbb] at hu
          obtain ⟨hun, hub, huu⟩ := hInv.spawnInv b2 hb2 u hu
          have hus : u ≠ s := fun he => by rw [he, hsp] at huu; cases huu
          exact ⟨hun, hub, by rw [hshard u hus]; exact huu⟩
      · -- unspawnedInv
        intro u hun huu
        have hus : u ≠ s := fun he => by rw [he, hshardS] at huu; cases huu
        rw [hshard u hus] at huu
        have hold := hInv.unspawnedInv u hun huu
        by_cases hbb : u % cfg.maxConcurrency = s % cfg.maxConcurrency
        · rw [hbb, hbucketB]
          rw [hbb] at hold
          exact hold
        · rw [hbucket _ hbb]
          exact hold
      · -- gateInv
        intro b2 hb2 u hu
        by_cases hbb : b2 = s % cfg.maxConcurrency
        · subst hbb
          rw [hbucketB] at hu
          obtain ⟨hun, hub, hust⟩ := hInv.gateInv _ hb2 u hu
          by_cases hus : u = s
          · subst hus
            exact ⟨hun, hub, Or.inr (Or.inr hshardS)⟩
          · refine ⟨hun, hub, ?_⟩
            rw [hshard u hus]
            exact hust
        · rw [hbucket b2 hbb] at hu
          obtain ⟨hun, hub, hust⟩ := hInv.gateInv b2 hb2 u hu
          have hus : u ≠ s := fun he => hbb (by rw [← hub, he])
          refine ⟨hun, hub, ?_⟩
          rw [hshard u hus]
          exact hust
      · -- gateLen
        intro b2 hb2
        by_cases hbb : b2 = s % cfg.maxConcurrency
        · subst hbb
          rw [hbucketB]
          exact hInv.gateLen _ hb2
        · rw [hbucket b2 hbb]
          exact hInv.gateLen b2 hb2
      · -- nodupWait
        intro b2 hb2
        by_cases hbb : b2 = s % cfg.maxConcurrency
        · subst hbb
          rw [hbucketB]
          exact hInv.nodupWait _ hb2
        · rw [hbucket b2 hbb]
          exact hInv.nodupWait b2 hb2
      · -- nodupSpawn
        intro b2 hb2
        by_cases hbb : b2 = s % cfg.maxConcurrency
        · subst hbb
          rw [hbucketB]
          exact hInv.nodupSpawn _ hb2
        · rw [hbucket b2 hbb]
          exact hInv.nodupSpawn b2 hb2
      · -- sentInv
        intro u hun
        by_cases hus : u = s
        · subst hus
          rcases hInv.sentInv u hun with h1 | h1
          · rw [hsp] at h1
            cases h1
          · exact Or.inr h1
        · rcases hInv.sentInv u hun with h1 | h1
          · left
            rw [hshard u hus]
            exact h1
          · exact Or.inr h1
    case h_2 val hown =>
      have hst := Option.some.inj h
      subst hst
      have hshardS :
          shardAt ⟨st.shards.set s SState.waiting,
            st.buckets.set (s % cfg.maxConcurrency)
              ⟨(bucketAt st (s % cfg.maxConcurrency)).owner,
               (bucketAt st (s % cfg.maxConcurrency)).waiters ++ [s],
               (bucketAt st (s % cfg.maxConcurrency)).gate,
               (bucketAt st (s % cfg.maxConcurrency)).toSpawn⟩,
            st.workers, st.sent⟩ s = SState.waiting :=
        shardAt_set_self_mk st _ _ _ s SState.waiting hslen
      have hshard : ∀ u, u ≠ s →
          shardAt ⟨st.shards.set s SState.waiting,
            st.buckets.set (s % cfg.maxConcurrency)
              ⟨(bucketAt st (s % cfg.maxConcurrency)).owner,
               (bucketAt st (s % cfg.maxConcurrency)).waiters ++ [s],
               (bucketAt st (s % cfg.maxConcurrency)).gate,
               (bucketAt st (s % cfg.maxConcurrency)).toSpawn⟩,
            st.workers, st.sent⟩ u = shardAt st u :=
        fun u hu => shardAt_set_of_ne st _ _ _ s u SState.waiting hu
      have hbucketB :
          bucketAt ⟨st.shards.set s SState.waiting,
            st.buckets.set (s % cfg.maxConcurrency)
              ⟨(bucketAt st (s % cfg.maxConcurrency)).owner,
               (bucketAt st (s % cfg.maxConcurrency)).waiters ++ [s],
               (bucketAt st (s % cfg.maxConcurrency)).gate,
               (bucketAt st (s % cfg.maxConcurrency)).toSpawn⟩,
            st.workers, st.sent⟩ (s % cfg.maxConcurrency) =
          ⟨(bucketAt st (s % cfg.maxConcurrency)).owner,
           (bucketAt st (s % cfg.maxConcurrency)).waiters ++ [s],
           (bucketAt st (s % cfg.maxConcurrency)).gate,
           (bucketAt st (s % cfg.maxConcurrency)).toSpawn⟩ :=
        bucketAt_set_self_mk st _ _ _ (s % cfg.maxConcurrency) _ hblt
      have hbucket : ∀ b2, b2 ≠ s % cfg.maxConcurrency →
          bucketAt ⟨st.shards.set s SState.waiting,
            st.buckets.set (s % cfg.maxConcurrency)
              ⟨(bucketAt st (s % cfg.maxConcurrency)).owner,
               (bucketAt st (s % cfg.maxConcurrency)).waiters ++ [s],
               (bucketAt st (s % cfg.maxConcurrency)).gate,
               (bucketAt st (s % cfg.maxConcurrency)).toSpawn⟩,
            st.workers, st.sent⟩ b2 = bucketAt st b2 :=
        fun b2 h2 => bucketAt_set_of_ne st _ _ _ (s % cfg.maxConcurrency) b2 _ h2
      have hsnw : s ∉ (bucketAt st (s % cfg.maxConcurrency)).waiters := by
        intro hmem
        have hbm : s % cfg.maxConcurrency ∈ List.range cfg.maxConcurrency :=
          List.mem_range.mpr (Nat.mod_lt s hInv.mcpos)
        obtain ⟨-, -, hw⟩ := hInv.waitInv _ hbm s hmem
        rw [hsp] at hw
        cases hw
      refine ⟨hInv.mcpos, ?_, ?_, ?_, ?_, ?_, ?_, ?_, ?_, ?_, ?_, ?_, ?_, ?_, ?_⟩
      · simpa using hInv.lenShards
      · simpa using hInv.lenBuckets
      · -- ownerInv
        intro b2 hb2 u hu
        by_cases hbb : b2 = s % cfg.maxConcurrency
        · subst hbb
          rw [hbucketB] at hu
          obtain ⟨hun, hub, hui⟩ := hInv.ownerInv _ hb2 u hu
          have hus : u ≠ s := fun he => by rw [he, hsp] at hui; cases hui
          exact ⟨hun, hub, by rw [hshard u hus]; exact hui⟩
        · rw [hbucket b2 hbb] at hu
          obtain ⟨hun, hub, hui⟩ := hInv.ownerInv b2 hb2 u hu
          have hus : u ≠ s := fun he => by rw [he, hsp] at hui; cases hui
          exact ⟨hun, hub, by rw [hshard u hus]; exact hui⟩
      · -- identInv
        intro u hun hui
        have hus : u ≠ s := fun he => by rw [he, hshardS] at hui; cases hui
        rw [hshard u hus] at hui
        have hold := hInv.identInv u hun hui
        by_cases hbb : u % cfg.maxConcurrency = s % cfg.maxConcurrency
        · rw [hbb, hbucketB]
          rw [hbb] at hold
          exact hold
        · rw [hbucket _ hbb]
          exact hold
      · -- waitInv
        intro b2 hb2 u hu
        by_cases hbb : b2 = s % cfg.maxConcurrency
        · subst hbb
          rw [hbucketB] at hu
          rcases List.mem_append.mp hu with hu1 | hu1
          · obtain ⟨hun, hub, huw⟩ := hInv.waitInv _ hb2 u hu1
            have hus : u ≠ s := fun he => by rw [he, hsp] at huw; cases huw
            exact ⟨hun, hub, by rw [hshard u hus]; exact huw⟩
          · have hue : u = s := by simpa using hu1
            subst hue
            exact ⟨hsn, rfl, hshardS⟩
        · rw [hbucket b2 hbb] at hu
          obtain ⟨hun, hub, huw⟩ := hInv.waitInv b2 hb2 u hu
          have hus : u ≠ s := fun he => by rw [he, hsp] at huw; cases huw
          exact ⟨hun, hub, by rw [hshard u hus]; exact huw⟩
      · -- waitingInv
        intro u hun huw
        by_cases hus : u = s
        · subst hus
          rw [hbucketB]
          exact List.mem_append_right _ (List.mem_singleton.mpr rfl)
        · rw [hshard u hus] at huw
          have hold := hInv.waitingInv u hun huw
          by_cases hbb : u % cfg.maxConcurrency = s % cfg.maxConcurrency
          · rw [hbb, hbucketB]
            rw [hbb] at hold
            exact List.mem_append_left _ hold
          · rw [hbucket _ hbb]
            exact hold
      · -- waitOwner
        intro b2 hb2 hnone
        by_cases hbb : b2 = s % cfg.maxConcurrency
        · subst hbb
          rw [hbucketB] at hnone
          rw [hown] at hnone
          cases hnone
        · rw [hbucket b2 hbb] at hnone ⊢
          exact hInv.waitOwner b2 hb2 hnone
      · -- spawnInv
        intro b2 hb2 u hu
        by_cases hbb : b2 = s % cfg.maxConcurrency
        · subst hbb
          rw [hbucketB] at hu
          obtain ⟨hun, hub, huu⟩ := hInv.spawnInv _ hb2 u hu
          have hus : u ≠ s := fun he => by rw [he, hsp] at huu; cases huu
          exact ⟨hun, hub, by rw [hshard u hus]; exact huu⟩
        · rw [hbucket b2 hbb] at hu
          obtain ⟨hun, hub, huu⟩ := hInv.spawnInv b2 hb2 u hu
          have hus : u ≠ s := fun he => by rw [he, hsp] at huu; cases huu
          exact ⟨hun, hub, by rw [hshard u hus]; exact huu⟩
      · -- unspawnedInv
        intro u hun huu
        have hus : u ≠ s := fun he => by rw [he, hshardS] at huu; cases huu
        rw [hshard u hus] at huu
        have hold := hInv.unspawnedInv u hun huu
        by_cases hbb : u % cfg.maxConcurrency = s % cfg.maxConcurrency
        · rw [hbb, hbucketB]
          rw [hbb] at hold
          exact hold
        · rw [hbucket _ hbb]
          exact hold
      · -- gateInv
        intro b2 hb2 u hu
        by_cases hbb : b2 = s % cfg.maxConcurrency
        · subst hbb
          rw [hbucketB] at hu
          obtain ⟨hun, hub, hust⟩ := hInv.gateInv _ hb2 u hu
          by_cases hus : u = s
          · subst hus
            exact ⟨hun, hub, Or.inr (Or.inl hshardS)⟩
          · refine ⟨hun, hub, ?_⟩
            rw [hshard u hus]
            exact hust
        · rw [hbucket b2 hbb] at hu
          obtain ⟨hun, hub, hust⟩ := hInv.gateInv b2 hb2 u hu
          have hus : u ≠ s := fun he => hbb (by rw [← hub, he])
          refine ⟨hun, hub, ?_⟩
          rw [hshard u hus]
          exact hust
      · -- gateLen
        intro b2 hb2
        by_cases hbb : b2 = s % cfg.maxConcurrency
        · subst hbb
          rw [hbucketB]
          exact hInv.gateLen _ hb2
        · rw [hbucket b2 hbb]
          exact hInv.gateLen b2 hb2
      · -- nodupWait
        intro b2 hb2
        by_cases hbb : b2 = s % cfg.maxConcurrency
        · subst hbb
          rw [hbucketB]
          rw [List.nodup_append]
          exact ⟨hInv.nodupWait _ hb2, List.nodup_singleton s,
            fun u hu1 hu2 => hsnw (by rwa [List.mem_singleton.mp hu2] at hu1)⟩
        · rw [hbucket b2 hbb]
          exact hInv.nodupWait b2 hb2
      · -- nodupSpawn
        intro b2 hb2
        by_cases hbb : b2 = s % cfg.maxConcurrency
        · subst hbb
          rw [hbucketB]
          exact hInv.nodupSpawn _ hb2
        · rw [hbucket b2 hbb]
          exact hInv.nodupSpawn b2 hb2
      · -- sentInv
        intro u hun
        by_cases hus : u = s
        · subst hus
          rcases hInv.sentInv u hun with h1 | h1
          · rw [hsp] at h1
            cases h1
          · exact Or.inr h1
        · rcases hInv.sentInv u hun with h1 | h1
          · left
            rw [hshard u hus]
            exact h1
          · exact Or.inr h1

theorem inv_shardReady (cfg : GenConfig) (st st2 : GenState) (s : Nat)
    (hInv : Invariant cfg st) (h : applyEvent cfg st (GEvent.shardReady s) = some st2) :
    Invariant cfg st2 := by
  simp only [applyEvent, concurrency] at h
  split at h
  case isFalse => exact Option.noConfusion h
  case isTrue hcond =>
    obtain ⟨hslen, hsi⟩ := hcond
    have hsn : s ∈ List.range cfg.totalShards :=
      List.mem_range.mpr (hInv.lenShards ▸ hslen)
    have hbm : s % cfg.maxConcurrency ∈ List.range cfg.maxConcurrency :=
      List.mem_range.mpr (Nat.mod_lt s hInv.mcpos)
    have hblt : s % cfg.maxConcurrency < st.buckets.length := by
      rw [hInv.lenBuckets]
      exact Nat.mod_lt s hInv.mcpos
    have hown : (bucketAt st (s % cfg.maxConcurrency)).owner = some s :=
      hInv.identInv s hsn hsi
    have hgd : (bucketAt st (s % cfg.maxConcurrency)).gate.drop 1 = [] := by
      have hgl := hInv.gateLen _ hbm
      cases hg : (bucketAt st (s % cfg.maxConcurrency)).gate with
      | nil => rfl
      | cons x t =>
        rw [hg] at hgl
        simp only [List.length_cons] at hgl
        have ht : t = [] := List.eq_nil_of_length_eq_zero (by omega)
        rw [ht]
        rfl
    split at h
    case h_1 hwait =>
      have hst := Option.some.inj h
      subst hst
      have hshardS :
          shardAt ⟨st.shards.set s SState.ready,
            st.buckets.set (s % cfg.maxConcurrency)
              ⟨none, [],
               (bucketAt st (s % cfg.maxConcurrency)).gate.drop 1,
               (bucketAt st (s % cfg.maxConcurrency)).toSpawn⟩,
            st.workers, st.sent⟩ s = SState.ready :=
        shardAt_set_self_mk st _ _ _ s SState.ready hslen
      have hshard : ∀ u, u ≠ s →
          shardAt ⟨st.shards.set s SState.ready,
            st.buckets.set (s % cfg.maxConcurrency)
              ⟨none, [],
               (bucketAt st (s % cfg.maxConcurrency)).gate.drop 1,
               (bucketAt st (s % cfg.maxConcurrency)).toSpawn⟩,
            st.workers, st.sent⟩ u = shardAt st u :=
        fun u hu => shardAt_set_of_ne st _ _ _ s u SState.ready hu
      have hbucketB :
          bucketAt ⟨st.shards.set s SState.ready,
            st.buckets.set (s % cfg.maxConcurrency)
              ⟨none, [],
               (bucketAt st (s % cfg.maxConcurrency)).gate.drop 1,
               (bucketAt st (s % cfg.maxConcurrency)).toSpawn⟩,
            st.workers, st.sent⟩ (s % cfg.maxConcurrency) =
          ⟨none, [],
           (bucketAt st (s % cfg.maxConcurrency)).gate.drop 1,
           (bucketAt st (s % cfg.maxConcurrency)).toSpawn⟩ :=
        bucketAt_set_self_mk st _ _ _ (s % cfg.maxConcurrency) _ hblt
      have hbucket : ∀ b2, b2 ≠ s % cfg.maxConcurrency →
          bucketAt ⟨st.shards.set s SState.ready,
            st.buckets.set (s % cfg.maxConcurrency)
              ⟨none, [],
               (bucketAt st (s % cfg.maxConcurrency)).gate.drop 1,
               (bucketAt st (s % cfg.maxConcurrency)).toSpawn⟩,
            st.workers, st.sent⟩ b2 = bucketAt st b2 :=
        fun b2 h2 => bucketAt_set_of_ne st _ _ _ (s % cfg.maxConcurrency) b2 _ h2
      refine ⟨hInv.mcpos, ?_, ?_, ?_, ?_, ?_, ?_, ?_, ?_, ?_, ?_, ?_, ?_, ?_, ?_⟩
      · simpa using hInv.lenShards
      · simpa using hInv.lenBuckets
      · -- ownerInv
        intro b2 hb2 u hu
        by_cases hbb : b2 = s % cfg.maxConcurrency
        · subst hbb
          rw [hbucketB] at hu
          simp at hu
        · rw [hbucket b2 hbb] at hu
          obtain ⟨hun, hub, hui⟩ := hInv.ownerInv b2 hb2 u hu
          have hus : u ≠ s := fun he => hbb (by rw [← hub, he])
          exact ⟨hun, hub, by rw [hshard u hus]; exact hui⟩
      · -- identInv
        intro u hun hui
        have hus : u ≠ s := fun he => by rw [he, hshardS] at hui; cases hui
        rw [hshard u hus] at hui
        have hold := hInv.identInv u hun hui
        by_cases hbb : u % cfg.maxConcurrency = s % cfg.maxConcurrency
        · rw [hbb, hown] at hold
          exact absurd (Option.some.inj hold) (fun he => hus he.symm)
        · rw [hbucket _ hbb]
          exact hold
      · -- waitInv
        intro b2 hb2 u hu
        by_cases hbb : b2 = s % cfg.maxConcurrency
        · subst hbb
          rw [hbucketB] at hu
          cases hu
        · rw [hbucket b2 hbb] at hu
          obtain ⟨hun, hub, huw⟩ := hInv.waitInv b2 hb2 u hu
          have hus : u ≠ s := fun he => by rw [he, hsi] at huw; cases huw
          exact ⟨hun, hub, by rw [hshard u hus]; exact huw⟩
      · -- waitingInv
        intro u hun huw
        have hus : u ≠ s := fun he => by rw [he, hshardS] at huw; cases huw
        rw [hshard u hus] at huw
        have hold := hInv.waitingInv u hun huw
        by_cases hbb : u % cfg.maxConcurrency = s % cfg.maxConcurrency
        · rw [hbb, hwait] at hold
          cases hold
        · rw [hbucket _ hbb]
          exact hold
      · -- waitOwner
        intro b2 hb2 _
        by_cases hbb : b2 = s % cfg.maxConcurrency
        · subst hbb
          rw [hbucketB]
        · rw [hbucket b2 hbb]
          apply hInv.waitOwner b2 hb2
          by_contra hne
          obtain ⟨o, ho⟩ := Option.ne_none_iff_exists'.mp hne
          obtain ⟨-, hob, -⟩ := hInv.ownerInv b2 hb2 o (by rw [ho]; simp)
          rename_i hnone
          rw [hbucket b2 hbb] at hnone
          rw [ho] at hnone
          cases hnone
      · -- spawnInv
        intro b2 hb2 u hu
        by_cases hbb : b2 = s % cfg.maxConcurrency
        · subst hbb
          rw [hbucketB] at hu
          obtain ⟨hun, hub, huu⟩ := hInv.spawnInv _ hb2 u hu
          have hus : u ≠ s := fun he => by rw [he, hsi] at huu; cases huu
          exact ⟨hun, hub, by rw [hshard u hus]; exact huu⟩
        · rw [hbucket b2 hbb] at hu
          obtain ⟨hun, hub, huu⟩ := hInv.spawnInv b2 hb2 u hu
          have hus : u ≠ s := fun he => by rw [he, hsi] at huu; cases huu
          exact ⟨hun, hub, by rw [hshard u hus]; exact huu⟩
      · -- unspawnedInv
        intro u hun huu
        have hus : u ≠ s := fun he => by rw [he, hshardS] at huu; cases huu
        rw [hshard u hus] at huu
        have hold := hInv.unspawnedInv u hun huu
        by_cases hbb : u % cfg.maxConcurrency = s % cfg.maxConcurrency
        · rw [hbb, hbucketB]
          rw [hbb] at hold
          exact hold
        · rw [hbucket _ hbb]
          exact hold
      · -- gateInv
        intro b2 hb2 u hu
        by_cases hbb : b2 = s % cfg.maxConcurrency
        · subst hbb
          rw [hbucketB] at hu
          rw [hgd] at hu
          cases hu
        · rw [hbucket b2 hbb] at hu
          obtain ⟨hun, hub, hust⟩ := hInv.gateInv b2 hb2 u hu
          have hus : u ≠ s := fun he => hbb (by rw [← hub, he])
          refine ⟨hun, hub, ?_⟩
          rw [hshard u hus]
          exact hust
      · -- gateLen
        intro b2 hb2
        by_cases hbb : b2 = s % cfg.maxConcurrency
        · subst hbb
          rw [hbucketB]
          rw [hgd]
          exact Nat.zero_le 1
        · rw [hbucket b2 hbb]
          exact hInv.gateLen b2 hb2
      · -- nodupWait
        intro b2 hb2
        by_cases hbb : b2 = s % cfg.maxConcurrency
        · subst hbb
          rw [hbucketB]
          exact List.nodup_nil
        · rw [hbucket b2 hbb]
          exact hInv.nodupWait b2 hb2
      · -- nodupSpawn
        intro b2 hb2
        by_cases hbb : b2 = s % cfg.maxConcurrency
        · subst hbb
          rw [hbucketB]
          exact hInv.nodupSpawn _ hb2
        · rw [hbucket b2 hbb]
          exact hInv.nodupSpawn b2 hb2
      · -- sentInv
        intro u hun
        by_cases hus : u = s
        · subst hus
          rcases hInv.sentInv u hun with h1 | h1
          · rw [hsi] at h1
            cases h1
          · exact Or.inr h1
        · rcases hInv.sentInv u hun with h1 | h1
          · left
            rw [hshard u hus]
            exact h1
          · exact Or.inr h1
    case h_2 w rest hwait =>
      have hst := Option.some.inj h
      subst hst
      obtain ⟨hwn, hwb, hww⟩ :=
        hInv.waitInv _ hbm w (by rw [hwait]; exact List.mem_cons_self w rest)
      have hws : w ≠ s := fun he => by rw [he, hsi] at hww; cases hww
      have hwlen : w < st.shards.length := by
        rw [hInv.lenShards]
        exact List.mem_range.mp hwn
      have hwnr : w ∉ rest := by
        have := hInv.nodupWait _ hbm
        rw [hwait] at this
        exact (List.nodup_cons.mp this).1
      have hXw :
          shardAt ⟨(st.shards.set s SState.ready).set w SState.identifying,
            st.buckets.set (s % cfg.maxConcurrency)
              ⟨some w, rest,
               (bucketAt st (s % cfg.maxConcurrency)).gate.drop 1,
               (bucketAt st (s % cfg.maxConcurrency)).toSpawn⟩,
            st.workers, st.sent⟩ w = SState.identifying := by
        rw [shardAt_mk]
        exact getD_set_self _ w SState.identifying SState.ready
          (by rw [List.length_set]; exact hwlen)
      have hXs :
          shardAt ⟨(st.shards.set s SState.ready).set w SState.identifying,
            st.buckets.set (s % cfg.maxConcurrency)
              ⟨some w, rest,
               (bucketAt st (s % cfg.maxConcurrency)).gate.drop 1,
               (bucketAt st (s % cfg.maxConcurrency)).toSpawn⟩,
            st.workers, st.sent⟩ s = SState.ready := by
        rw [shardAt_mk]
        rw [getD_set_ne _ w s SState.identifying SState.ready hws]
        exact getD_set_self st.shards s SState.ready SState.ready hslen
      have hXu : ∀ u, u ≠ s → u ≠ w →
          shardAt ⟨(st.shards.set s SState.ready).set w SState.identifying,
            st.buckets.set (s % cfg.maxConcurrency)
              ⟨some w, rest,
               (bucketAt st (s % cfg.maxConcurrency)).gate.drop 1,
               (bucketAt st (s % cfg.maxConcurrency)).toSpawn⟩,
            st.workers, st.sent⟩ u = shardAt st u := by
        intro u hus huw
        rw [shardAt_mk]
        rw [getD_set_ne _ w u SState.identifying SState.ready (fun he => huw he.symm)]
        rw [getD_set_ne st.shards s u SState.ready SState.ready (fun he => hus he.symm)]
        rfl
      have hbucketB :
          bucketAt ⟨(st.shards.set s SState.ready).set w SState.identifying,
            st.buckets.set (s % cfg.maxConcurrency)
              ⟨some w, rest,
               (bucketAt st (s % cfg.maxConcurrency)).gate.drop 1,
               (bucketAt st (s % cfg.maxConcurrency)).toSpawn⟩,
            st.workers, st.sent⟩ (s % cfg.maxConcurrency) =
          ⟨some w, rest,
           (bucketAt st (s % cfg.maxConcurrency)).gate.drop 1,
           (bucketAt st (s % cfg.maxConcurrency)).toSpawn⟩ :=
        bucketAt_set_self_mk st _ _ _ (s % cfg.maxConcurrency) _ hblt
      have hbucket : ∀ b2, b2 ≠ s % cfg.maxConcurrency →
          bucketAt ⟨(st.shards.set s SState.ready).set w SState.identifying,
            st.buckets.set (s % cfg.maxConcurrency)
              ⟨some w, rest,
               (bucketAt st (s % cfg.maxConcurrency)).gate.drop 1,
               (bucketAt st (s % cfg.maxConcurrency)).toSpawn⟩,
            st.workers, st.sent⟩ b2 = bucketAt st b2 :=
        fun b2 h2 => bucketAt_set_of_ne st _ _ _ (s % cfg.maxConcurrency) b2 _ h2
      refine ⟨hInv.mcpos, ?_, ?_, ?_, ?_, ?_, ?_, ?_, ?_, ?_, ?_, ?_, ?_, ?_, ?_⟩
      · simp [hInv.lenShards]
      · simpa using hInv.lenBuckets
      · -- ownerInv
        intro b2 hb2 u hu
        by_cases hbb : b2 = s % cfg.maxConcurrency
        · subst hbb
          rw [hbucketB] at hu
          have hue : u = w := by simpa using hu
          subst hue
          exact ⟨hwn, hwb, hXw⟩
        · rw [hbucket b2 hbb] at hu
          obtain ⟨hun, hub, hui⟩ := hInv.ownerInv b2 hb2 u hu
          have hus : u ≠ s := fun he => hbb (by rw [← hub, he])
          have huw : u ≠ w := fun he => hbb (by rw [← hub, he, hwb])
          exact ⟨hun, hub, by rw [hXu u hus huw]; exact hui⟩
      · -- identInv
        intro u hun hui
        by_cases huw : u = w
        · subst huw
          rw [hwb, hbucketB]
        · have hus : u ≠ s := fun he => by rw [he, hXs] at hui; cases hui
          rw [hXu u hus huw] at hui
          have hold := hInv.identInv u hun hui
          by_cases hbb : u % cfg.maxConcurrency = s % cfg.maxConcurrency
          · rw [hbb, hown] at hold
            exact absurd (Option.some.inj hold) (fun he => hus he.symm)
          · rw [hbucket _ hbb]
            exact hold
      · -- waitInv
        intro b2 hb2 u hu
        by_cases hbb : b2 = s % cfg.maxConcurrency
        · subst hbb
          rw [hbucketB] at hu
          have hur : u ∈ (bucketAt st (s % cfg.maxConcurrency)).waiters := by
            rw [hwait]
            exact List.mem_cons_of_mem w hu
          obtain ⟨hun, hub, huw2⟩ := hInv.waitInv _ hb2 u hur
          have hus : u ≠ s := fun he => by rw [he, hsi] at huw2; cases huw2
          have huw : u ≠ w := fun he => hwnr (he ▸ hu)
          exact ⟨hun, hub, by rw [hXu u hus huw]; exact huw2⟩
        · rw [hbucket b2 hbb] at hu
          obtain ⟨hun, hub, huw2⟩ := hInv.waitInv b2 hb2 u hu
          have hus : u ≠ s := fun he => hbb (by rw [← hub, he])
          have huw : u ≠ w := fun he => hbb (by rw [← hub, he, hwb])
          exact ⟨hun, hub, by rw [hXu u hus huw]; exact huw2⟩
      · -- waitingInv
        intro u hun huw2
        have huw : u ≠ w := fun he => by rw [he, hXw] at huw2; cases huw2
        have hus : u ≠ s := fun he => by rw [he, hXs] at huw2; cases huw2
        rw [hXu u hus huw] at huw2
        have hold := hInv.waitingInv u hun huw2
        by_cases hbb : u % cfg.maxConcurrency = s % cfg.maxConcurrency
        · rw [hbb, hbucketB]
          rw [hbb, hwait] at hold
          rcases List.mem_cons.mp hold with he | he
          · exact absurd he huw
          · exact he
        · rw [hbucket _ hbb]
          exact hold
      · -- waitOwner
        intro b2 hb2 hnone
        by_cases hbb : b2 = s % cfg.maxConcurrency
        · subst hbb
          rw [hbucketB] at hnone
          cases hnone
        · rw [hbucket b2 hbb] at hnone ⊢
          exact hInv.waitOwner b2 hb2 hnone
      · -- spawnInv
        intro b2 hb2 u hu
        by_cases hbb : b2 = s % cfg.maxConcurrency
        · subst hbb
          rw [hbucketB] at hu
          obtain ⟨hun, hub, huu⟩ := hInv.spawnInv _ hb2 u hu
          have hus : u ≠ s := fun he => by rw [he, hsi] at huu; cases huu
          have huw : u ≠ w := fun he => by rw [he, hww] at huu; cases huu
          exact ⟨hun, hub, by rw [hXu u hus huw]; exact huu⟩
        · rw [hbucket b2 hbb] at hu
          obtain ⟨hun, hub, huu⟩ := hInv.spawnInv b2 hb2 u hu
          have hus : u ≠ s := fun he => by rw [he, hsi] at huu; cases huu
          have huw : u ≠ w := fun he => by rw [he, hww] at huu; cases huu
          exact ⟨hun, hub, by rw [hXu u hus huw]; exact huu⟩
      · -- unspawnedInv
        intro u hun huu
        have hus : u ≠ s := fun he => by rw [he, hXs] at huu; cases huu
        have huw : u ≠ w := fun he => by rw [he, hXw] at huu; cases huu
        rw [hXu u hus huw] at huu
        have hold := hInv.unspawnedInv u hun huu
        by_cases hbb : u % cfg.maxConcurrency = s % cfg.maxConcurrency
        · rw [hbb, hbucketB]
          rw [hbb] at hold
          exact hold
        · rw [hbucket _ hbb]
          exact hold
      · -- gateInv
        intro b2 hb2 u hu
        by_cases hbb : b2 = s % cfg.maxConcurrency
        · subst hbb
          rw [hbucketB] at hu
          rw [hgd] at hu
          cases hu
        · rw [hbucket b2 hbb] at hu
          obtain ⟨hun, hub, hust⟩ := hInv.gateInv b2 hb2 u hu
          have hus : u ≠ s := fun he => hbb (by rw [← hub, he])
          have huw : u ≠ w := fun he => hbb (by rw [← hub, he, hwb])
          refine ⟨hun, hub, ?_⟩
          rw [hXu u hus huw]
          exact hust
      · -- gateLen
        intro b2 hb2
        by_cases hbb : b2 = s % cfg.maxConcurrency
        · subst hbb
          rw [hbucketB]
          rw [hgd]
          exact Nat.zero_le 1
        · rw [hbucket b2 hbb]
          exact hInv.gateLen b2 hb2
      · -- nodupWait
        intro b2 hb2
        by_cases hbb : b2 = s % cfg.maxConcurrency
        · subst hbb
          rw [hbucketB]
          have := hInv.nodupWait _ hb2
          rw [hwait] at this
          exact (List.nodup_cons.mp this).2
        · rw [hbucket b2 hbb]
          exact hInv.nodupWait b2 hb2
      · -- nodupSpawn
        intro b2 hb2
        by_cases hbb : b2 = s % cfg.maxConcurrency
        · subst hbb
          rw [hbucketB]
          exact hInv.nodupSpawn _ hb2
        · rw [hbucket b2 hbb]
          exact hInv.nodupSpawn b2 hb2
      · -- sentInv
        intro u hun
        by_cases hus : u = s
        · subst hus
          rcases hInv.sentInv u hun with h1 | h1
          · rw [hsi] at h1
            cases h1
          · exact Or.inr h1
        · by_cases huw : u = w
          · subst huw
            rcases hInv.sentInv u hun with h1 | h1
            · rw [hww] at h1
              cases h1
            · exact Or.inr h1
          · rcases hInv.sentInv u hun with h1 | h1
            · left
              rw [hXu u hus huw]
              exact h1
            · exact Or.inr h1

/-! ### Initial state and reachability -/

theorem bucketAt_init (cfg : GenConfig) (b : Nat) (hb : b < cfg.maxConcurrency) :
    bucketAt (initState cfg) b = initBucket cfg b := by
  unfold initState
  rw [bucketAt_mk]
  exact getD_map_range (initBucket cfg) cfg.maxConcurrency b _ hb

theorem shardAt_init (cfg : GenConfig) (s : Nat) (hs : s < cfg.totalShards) :
    shardAt (initState cfg) s = SState.unspawned := by
  unfold initState
  rw [shardAt_mk]
  exact getD_replicate cfg.totalShards s SState.unspawned SState.ready hs

theorem invariant_init (cfg : GenConfig) (h : 0 < cfg.maxConcurrency) :
    Invariant cfg (initState cfg) := by
  refine ⟨h, ?_, ?_, ?_, ?_, ?_, ?_, ?_, ?_, ?_, ?_, ?_, ?_, ?_, ?_⟩
  · simp [initState]
  · simp [initState]
  · intro b hb u hu
    rw [bucketAt_init cfg b (List.mem_range.mp hb)] at hu
    cases hu
  · intro s hs hi
    rw [shardAt_init cfg s (List.mem_range.mp hs)] at hi
    cases hi
  · intro b hb u hu
    rw [bucketAt_init cfg b (List.mem_range.mp hb)] at hu
    cases hu
  · intro s hs hw
    rw [shardAt_init cfg s (List.mem_range.mp hs)] at hw
    cases hw
  · intro b hb _
    rw [bucketAt_init cfg b (List.mem_range.mp hb)]
    rfl
  · intro b hb u hu
    rw [bucketAt_init cfg b (List.mem_range.mp hb)] at hu
    simp only [initBucket, bucketShards, List.mem_filter, List.mem_range] at hu
    obtain ⟨hur, hub⟩ := hu
    refine ⟨List.mem_range.mpr hur, by simpa using hub, shardAt_init cfg u hur⟩
  · intro s hs _
    have hsl : s % cfg.maxConcurrency < cfg.maxConcurrency := Nat.mod_lt s h
    rw [bucketAt_init cfg _ hsl]
    simp only [initBucket, bucketShards, List.mem_filter, List.mem_range]
    exact ⟨List.mem_range.mp hs, by simp⟩
  · intro b hb u hu
    rw [bucketAt_init cfg b (List.mem_range.mp hb)] at hu
    cases hu
  · intro b hb
    rw [bucketAt_init cfg b (List.mem_range.mp hb)]
    exact Nat.zero_le 1
  · intro b hb
    rw [bucketAt_init cfg b (List.mem_range.mp hb)]
    exact List.nodup_nil
  · intro b hb
    rw [bucketAt_init cfg b (List.mem_range.mp hb)]
    exact List.Nodup.filter _ (List.nodup_range cfg.totalShards)
  · intro s hs
    exact Or.inl (shardAt_init cfg s (List.mem_range.mp hs))

theorem inv_step (cfg : GenConfig) (st st2 : GenState) (hInv : Invariant cfg st)
    (h : StepRel cfg st st2) : Invariant cfg st2 := by
  obtain ⟨e, he⟩ := h
  cases e with
  | spawnNext b => exact inv_spawnNext cfg st st2 b hInv he
  | toIdentify s => exact inv_toIdentify cfg st st2 s hInv he
  | shardReady s => exact inv_shardReady cfg st st2 s hInv he

theorem invariant_reachable (cfg : GenConfig) (st : GenState) (h : 0 < cfg.maxConcurrency)
    (hr : Reachable cfg st) : Invariant cfg st := by
  induction hr with
  | refl => exact invariant_init cfg h
  | tail hst hstep ih => exact inv_step _ _ _ ih hstep

/-! ### Deterministic run facts -/

theorem firstStep_some (cfg : GenConfig) (stuck : List Nat) (st : GenState) :
    ∀ (es : List GEvent) (st2 : GenState), firstStep cfg stuck st es = some st2 →
      ∃ e ∈ es, applyEvent cfg st e = some st2 := by
  intro es
  induction es with
  | nil =>
    intro st2 h
    simp only [firstStep] at h
    exact Option.noConfusion h
  | cons e es ih =>
    intro st2 h
    simp only [firstStep] at h
    split at h
    case isTrue =>
      split at h
      case h_1 stx heq =>
        exact ⟨e, List.mem_cons_self e es, by rw [heq, Option.some.inj h]⟩
      case h_2 =>
        obtain ⟨e2, he2, h2⟩ := ih st2 h
        exact ⟨e2, List.mem_cons_of_mem e he2, h2⟩
    case isFalse =>
      obtain ⟨e2, he2, h2⟩ := ih st2 h
      exact ⟨e2, List.mem_cons_of_mem e he2, h2⟩

theorem firstStep_none (cfg : GenConfig) (stuck : List Nat) (st : GenState) :
    ∀ es : List GEvent, firstStep cfg stuck st es = none →
      ∀ e ∈ es, eventAllowed stuck e = true → applyEvent cfg st e = none := by
  intro es
  induction es with
  | nil =>
    intro _ e he
    cases he
  | cons e es ih =>
    intro h e2 he2 hall
    simp only [firstStep] at h
    split at h
    case isTrue hal =>
      split at h
      case h_1 stx heq => exact Option.noConfusion h
      case h_2 heq =>
        rcases List.mem_cons.mp he2 with rfl | he3
        · exact heq
        · exact ih h e2 he3 hall
    case isFalse hal =>
      rcases List.mem_cons.mp he2 with rfl | he3
      · exact absurd hall (by simpa using hal)
      · exact ih h e2 he3 hall

theorem firstStep_all_none (cfg : GenConfig) (stuck : List Nat) (st : GenState) :
    ∀ es : List GEvent, (∀ e ∈ es, applyEvent cfg st e = none) →
      firstStep cfg stuck st es = none := by
  intro es
  induction es with
  | nil => intro _; rfl
  | cons e es ih =>
    intro h
    simp only [firstStep]
    split
    case isTrue =>
      rw [h e (List.mem_cons_self e es)]
      exact ih (fun e2 he2 => h e2 (List.mem_cons_of_mem e he2))
    case isFalse =>
      exact ih (fun e2 he2 => h e2 (List.mem_cons_of_mem e he2))

theorem invariant_runD (cfg : GenConfig) (h : 0 < cfg.maxConcurrency) :
    ∀ k : Nat, Invariant cfg (runD cfg [] k) := by
  intro k
  induction k with
  | zero => exact invariant_init cfg h
  | succ m ih =>
    simp only [runD]
    cases hs : stepD cfg [] (runD cfg [] m) with
    | none => exact ih
    | some st2 =>
      obtain ⟨e, -, he⟩ := firstStep_some cfg [] _ (enabledEvents cfg) st2 hs
      exact inv_step _ _ _ ih ⟨e, he⟩

theorem runD_stable (cfg : GenConfig) (stuck : List Nat) (m : Nat)
    (h : stepD cfg stuck (runD cfg stuck m) = none) :
    ∀ k : Nat, runD cfg stuck (m + k) = runD cfg stuck m := by
  intro k
  induction k with
  | zero => rfl
  | succ j ih =>
    show runD cfg stuck (m + j + 1) = runD cfg stuck m
    simp only [runD]
    rw [ih, h]

/-! ### Termination measure -/

theorem genMeasure_mk (l : List SState) (bs : List Bucket) (ws : List Nat)
    (sn : List (Nat × Nat)) :
    genMeasure ⟨l, bs, ws, sn⟩ = (l.map stateWeight).sum := rfl

theorem measure_decrease (cfg : GenConfig) (st st2 : GenState) (hInv : Invariant cfg st)
    (e : GEvent) (h : applyEvent cfg st e = some st2) : genMeasure st2 < genMeasure st := by
  cases e with
  | spawnNext b =>
    simp only [applyEvent] at h
    split at h
    case isFalse => exact Option.noConfusion h
    case isTrue hb =>
      split at h
      case h_2 => exact Option.noConfusion h
      case h_1 s rest hgate hts =>
        have hst := Option.some.inj h
        subst hst
        have hbm : b ∈ List.range cfg.maxConcurrency :=
          List.mem_range.mpr (hInv.lenBuckets ▸ hb)
        obtain ⟨hsn, -, hsu⟩ :=
          hInv.spawnInv b hbm s (by rw [hts]; exact List.mem_cons_self s rest)
        have hslen : s < st.shards.length := by
          rw [hInv.lenShards]
          exact List.mem_range.mp hsn
        have key := sum_map_set stateWeight st.shards s SState.pending SState.ready hslen
        rw [show st.shards.getD s SState.ready = SState.unspawned from hsu] at key
        show ((st.shards.set s SState.pending).map stateWeight).sum <
          (st.shards.map stateWeight).sum
        simp only [stateWeight] at key
        omega
  | toIdentify s =>
    simp only [applyEvent, concurrency] at h
    split at h
    case isFalse => exact Option.noConfusion h
    case isTrue hcond =>
      obtain ⟨hslen, hsp⟩ := hcond
      split at h
      case h_1 hown =>
        have hst := Option.some.inj h
        subst hst
        have key := sum_map_set stateWeight st.shards s SState.identifying SState.ready hslen
        rw [show st.shards.getD s SState.ready = SState.pending from hsp] at key
        show ((st.shards.set s SState.identifying).map stateWeight).sum <
          (st.shards.map stateWeight).sum
        simp only [stateWeight] at key
        omega
      case h_2 val hown =>
        have hst := Option.some.inj h
        subst hst
        have key := sum_map_set stateWeight st.shards s SState.waiting SState.ready hslen
        rw [show st.shards.getD s SState.ready = SState.pending from hsp] at key
        show ((st.shards.set s SState.waiting).map stateWeight).sum <
          (st.shards.map stateWeight).sum
        simp only [stateWeight] at key
        omega
  | shardReady s =>
    simp only [applyEvent, concurrency] at h
    split at h
    case isFalse => exact Option.noConfusion h
    case isTrue hcond =>
      obtain ⟨hslen, hsi⟩ := hcond
      have hbm : s % cfg.maxConcurrency ∈ List.range cfg.maxConcurrency :=
        List.mem_range.mpr (Nat.mod_lt s hInv.mcpos)
      split at h
      case h_1 hwait =>
        have hst := Option.some.inj h
        subst hst
        have key := sum_map_set stateWeight st.shards s SState.ready SState.ready hslen
        rw [show st.shards.getD s SState.ready = SState.identifying from hsi] at key
        show ((st.shards.set s SState.ready).map stateWeight).sum <
          (st.shards.map stateWeight).sum
        simp only [stateWeight] at key
        omega
      case h_2 w rest hwait =>
        have hst := Option.some.inj h
        subst hst
        obtain ⟨hwn, -, hww⟩ :=
          hInv.waitInv _ hbm w (by rw [hwait]; exact List.mem_cons_self w rest)
        have hws : w ≠ s := fun he => by rw [he, hsi] at hww; cases hww
        have hwlen : w < st.shards.length := by
          rw [hInv.lenShards]
          exact List.mem_range.mp hwn
        have key1 := sum_map_set stateWeight st.shards s SState.ready SState.ready hslen
        rw [show st.shards.getD s SState.ready = SState.identifying from hsi] at key1
        have key2 := sum_map_set stateWeight (st.shards.set s SState.ready) w
          SState.identifying SState.ready (by rw [List.length_set]; exact hwlen)
        rw [getD_set_ne st.shards s w SState.ready SState.ready (fun he => hws he.symm)]
          at key2
        rw [show st.shards.getD w SState.ready = SState.waiting from hww] at key2
        show (((st.shards.set s SState.ready).set w SState.identifying).map stateWeight).sum <
          (st.shards.map stateWeight).sum
        simp only [stateWeight] at key1 key2
        omega

/-! ### Progress: a stalled scheduler means every shard is Ready -/

theorem stepD_none_allReady (cfg : GenConfig) (st : GenState) (hInv : Invariant cfg st)
    (h : stepD cfg [] st = none) : allReady cfg st := by
  have hall : ∀ e ∈ enabledEvents cfg, applyEvent cfg st e = none := by
    intro e he
    refine firstStep_none cfg [] st (enabledEvents cfg) h e he ?_
    cases e <;> simp [eventAllowed]
  have hmemSpawn : ∀ b, b < cfg.maxConcurrency →
      GEvent.spawnNext b ∈ enabledEvents cfg := by
    intro b hb
    unfold enabledEvents
    exact List.mem_append_left _ (List.mem_append_left _
      (List.mem_map_of_mem _ (List.mem_range.mpr hb)))
  have hmemToId : ∀ u, u < cfg.totalShards →
      GEvent.toIdentify u ∈ enabledEvents cfg := by
    intro u hu
    unfold enabledEvents
    exact List.mem_append_left _ (List.mem_append_right _
      (List.mem_map_of_mem _ (List.mem_range.mpr hu)))
  have hmemReady : ∀ u, u < cfg.totalShards →
      GEvent.shardReady u ∈ enabledEvents cfg := by
    intro u hu
    unfold enabledEvents
    exact List.mem_append_right _ (List.mem_map_of_mem _ (List.mem_range.mpr hu))
  have htoId : ∀ u, u < cfg.totalShards → shardAt st u = SState.pending → False := by
    intro u hu hp
    have hnone := hall (GEvent.toIdentify u) (hmemToId u hu)
    simp only [applyEvent] at hnone
    rw [if_pos ⟨by rw [hInv.lenShards]; exact hu, hp⟩] at hnone
    cases howner : (bucketAt st (concurrency cfg u)).owner with
    | none =>
      rw [howner] at hnone
      exact Option.noConfusion hnone
    | some v =>
      rw [howner] at hnone
      exact Option.noConfusion hnone
  have hready : ∀ u, u < cfg.totalShards → shardAt st u = SState.identifying → False := by
    intro u hu hp
    have hnone := hall (GEvent.shardReady u) (hmemReady u hu)
    simp only [applyEvent] at hnone
    rw [if_pos ⟨by rw [hInv.lenShards]; exact hu, hp⟩] at hnone
    cases hwt : (bucketAt st (concurrency cfg u)).waiters with
    | nil =>
      rw [hwt] at hnone
      exact Option.noConfusion hnone
    | cons w rest =>
      rw [hwt] at hnone
      exact Option.noConfusion hnone
  have hwaiting : ∀ u, u ∈ List.range cfg.totalShards →
      shardAt st u = SState.waiting → False := by
    intro u hu hw
    have humem := hInv.waitingInv u hu hw
    have hbm : u % cfg.maxConcurrency ∈ List.range cfg.maxConcurrency :=
      List.mem_range.mpr (Nat.mod_lt u hInv.mcpos)
    cases howner : (bucketAt st (u % cfg.maxConcurrency)).owner with
    | none =>
      have := hInv.waitOwner _ hbm howner
      rw [this] at humem
      cases humem
    | some o =>
      obtain ⟨hon, -, hoi⟩ := hInv.ownerInv _ hbm o (by rw [howner]; simp)
      exact hready o (List.mem_range.mp hon) hoi
  intro s hs
  by_contra hne
  cases hstate : shardAt st s with
  | ready => exact hne hstate
  | pending => exact htoId s (List.mem_range.mp hs) hstate
  | identifying => exact hready s (List.mem_range.mp hs) hstate
  | waiting => exact hwaiting s hs hstate
  | unspawned =>
    have hmem := hInv.unspawnedInv s hs hstate
    have hbl : s % cfg.maxConcurrency < cfg.maxConcurrency := Nat.mod_lt s hInv.mcpos
    have hbm : s % cfg.maxConcurrency ∈ List.range cfg.maxConcurrency :=
      List.mem_range.mpr hbl
    have hnone := hall (GEvent.spawnNext (s % cfg.maxConcurrency))
      (hmemSpawn _ hbl)
    simp only [applyEvent] at hnone
    rw [if_pos (by rw [hInv.lenBuckets]; exact hbl)] at hnone
    cases hgate : (bucketAt st (s % cfg.maxConcurrency)).gate with
    | nil =>
      cases hts : (bucketAt st (s % cfg.maxConcurrency)).toSpawn with
      | nil => rw [hts] at hmem; cases hmem
      | cons t ts =>
        rw [hgate, hts] at hnone
        exact Option.noConfusion hnone
    | cons g gs =>
      obtain ⟨hgn, hgb, hgst⟩ :=
        hInv.gateInv _ hbm g (by rw [hgate]; exact List.mem_cons_self g gs)
      rcases hgst with h1 | h1 | h1
      · exact htoId g (List.mem_range.mp hgn) h1
      · exact hwaiting g hgn h1
      · exact hready g (List.mem_range.mp hgn) h1

/-! ### All-Ready is absorbing -/

theorem allReady_no_event (cfg : GenConfig) (st : GenState) (hInv : Invariant cfg st)
    (hr : allReady cfg st) (e : GEvent) : applyEvent cfg st e = none := by
  cases e with
  | spawnNext b =>
    simp only [applyEvent]
    rcases Nat.lt_or_ge b st.buckets.length with hb | hb
    · rw [if_pos hb]
      cases hts : (bucketAt st b).toSpawn with
      | nil =>
        cases hgate : (bucketAt st b).gate with
        | nil => rfl
        | cons g gs => rfl
      | cons s0 rest =>
        have hbm : b ∈ List.range cfg.maxConcurrency :=
          List.mem_range.mpr (hInv.lenBuckets ▸ hb)
        obtain ⟨hsn, -, hsu⟩ :=
          hInv.spawnInv b hbm s0 (by rw [hts]; exact List.mem_cons_self s0 rest)
        rw [hr s0 hsn] at hsu
        cases hsu
    · rw [if_neg (Nat.not_lt.mpr hb)]
  | toIdentify s =>
    simp only [applyEvent]
    rw [if_neg]
    rintro ⟨h1, h2⟩
    have := hr s (List.mem_range.mpr (hInv.lenShards ▸ h1))
    rw [this] at h2
    cases h2
  | shardReady s =>
    simp only [applyEvent]
    rw [if_neg]
    rintro ⟨h1, h2⟩
    have := hr s (List.mem_range.mpr (hInv.lenShards ▸ h1))
    rw [this] at h2
    cases h2

theorem allReady_stepD_none (cfg : GenConfig) (st : GenState) (hInv : Invariant cfg st)
    (hr : allReady cfg st) : stepD cfg [] st = none :=
  firstStep_all_none cfg [] st (enabledEvents cfg)
    (fun e _ => allReady_no_event cfg st hInv hr e)

/-! ### Termination of the startup run -/

theorem sum_zero_mem : ∀ l : List Nat, l.sum = 0 → ∀ x ∈ l, x = 0 := by
  intro l
  induction l with
  | nil => intro _ x hx; cases hx
  | cons y t ih =>
    intro h x hx
    simp only [List.sum_cons] at h
    rcases List.mem_cons.mp hx with rfl | hx2
    · omega
    · exact ih (by omega) x hx2

theorem getD_eq_get {α : Type} : ∀ (l : List α) (i : Nat) (d : α) (h : i < l.length),
    l.getD i d = l.get ⟨i, h⟩ := by
  intro l
  induction l with
  | nil => intro i d h; simp at h
  | cons x t ih =>
    intro i d h
    cases i with
    | zero => rfl
    | succ j => simpa using ih j d (by simpa using h)

theorem genMeasure_init (cfg : GenConfig) :
    genMeasure (initState cfg) = 4 * cfg.totalShards := by
  unfold initState
  rw [genMeasure_mk]
  rw [List.map_replicate]
  rw [List.sum_replicate]
  simp [stateWeight]
  omega

theorem genMeasure_zero_allReady (cfg : GenConfig) (st : GenState)
    (hlen : st.shards.length = cfg.totalShards) (h : genMeasure st = 0) :
    allReady cfg st := by
  intro s hs
  have hslen : s < st.shards.length := hlen ▸ List.mem_range.mp hs
  have hmem : shardAt st s ∈ st.shards := by
    unfold shardAt
    rw [getD_eq_get st.shards s SState.ready hslen]
    exact List.get_mem st.shards s hslen
  have hz : stateWeight (shardAt st s) = 0 :=
    sum_zero_mem _ h _ (List.mem_map_of_mem stateWeight hmem)
  cases hst : shardAt st s <;> rw [hst] at hz <;> first | rfl | (simp [stateWeight] at hz)

theorem allReady_or_measure (cfg : GenConfig) (h : 0 < cfg.maxConcurrency) :
    ∀ k : Nat, allReady cfg (runD cfg [] k) ∨
      genMeasure (runD cfg [] k) + k ≤ 4 * cfg.totalShards := by
  intro k
  induction k with
  | zero =>
    right
    rw [show runD cfg [] 0 = initState cfg from rfl, genMeasure_init]
    omega
  | succ m ih =>
    cases hs : stepD cfg [] (runD cfg [] m) with
    | none =>
      left
      have hall := stepD_none_allReady cfg _ (invariant_runD cfg h m) hs
      simp only [runD]
      rw [hs]
      exact hall
    | some st2 =>
      rcases ih with hall | hle
      · have hnone := allReady_stepD_none cfg _ (invariant_runD cfg h m) hall
        rw [hnone] at hs
        exact Option.noConfusion hs
      · right
        obtain ⟨e, -, he⟩ := firstStep_some cfg [] _ (enabledEvents cfg) st2 hs
        have hdec := measure_decrease cfg _ st2 (invariant_runD cfg h m) e he
        have hrun : runD cfg [] (m + 1) = st2 := by
          simp only [runD]
          rw [hs]
        rw [hrun]
        omega

theorem allReady_runD (cfg : GenConfig) (h : 0 < cfg.maxConcurrency) :
    allReady cfg (runD cfg [] (4 * cfg.totalShards)) := by
  rcases allReady_or_measure cfg h (4 * cfg.totalShards) with hall | hle
  · exact hall
  · exact genMeasure_zero_allReady cfg _
      ((invariant_runD cfg h (4 * cfg.totalShards)).lenShards) (by omega)

theorem sent_coverage (cfg : GenConfig) (h : 0 < cfg.maxConcurrency) :
    ∀ s ∈ List.range cfg.totalShards,
      (workerOf cfg s, s) ∈ (runD cfg [] (4 * cfg.totalShards)).sent := by
  intro s hs
  rcases (invariant_runD cfg h (4 * cfg.totalShards)).sentInv s hs with h1 | h1
  · rw [allReady_runD cfg h s hs] at h1
    cases h1
  · exact h1

/-! ### Claim theorems: orchestration invariants and liveness -/

/-- C1: in every reachable orchestration state, at most one shard of each
concurrency bucket is in the Identifying state (its IDENTIFY is in flight),
and consequently at most maxConcurrency shards are Identifying overall. -/
theorem bucket_identify_exclusion (cfg : GenConfig) (st : GenState)
    (h : 0 < cfg.maxConcurrency) (hr : Reachable cfg st) :
    (∀ b ∈ List.range cfg.maxConcurrency,
      ∀ s1 ∈ List.range cfg.totalShards, ∀ s2 ∈ List.range cfg.totalShards,
        shardAt st s1 = SState.identifying → shardAt st s2 = SState.identifying →
        s1 % cfg.maxConcurrency = b → s2 % cfg.maxConcurrency = b → s1 = s2) ∧
    (identifyingSet cfg st).card ≤ cfg.maxConcurrency := by
  have hInv := invariant_reachable cfg st h hr
  constructor
  · intro b _ s1 hs1 s2 hs2 hi1 hi2 hb1 hb2
    have h1 := hInv.identInv s1 hs1 hi1
    have h2 := hInv.identInv s2 hs2 hi2
    rw [hb1] at h1
    rw [hb2] at h2
    rw [h1] at h2
    exact Option.some.inj h2
  · have hcard := Finset.card_le_card_of_injOn (s := identifyingSet cfg st)
      (t := Finset.range cfg.maxConcurrency) (fun s => s % cfg.maxConcurrency)
      ?maps ?inj
    · rwa [Finset.card_range] at hcard
    case maps =>
      intro a _
      exact Finset.mem_range.mpr (Nat.mod_lt a h)
    case inj =>
      intro s1 hs1 s2 hs2 heq
      simp only [Finset.coe_filter, Set.mem_setOf_eq, identifyingSet,
        Finset.mem_range] at hs1 hs2
      have h1 := hInv.identInv s1 (List.mem_range.mpr hs1.1) hs1.2
      have h2 := hInv.identInv s2 (List.mem_range.mpr hs2.1) hs2.2
      have heq2 : s1 % cfg.maxConcurrency = s2 % cfg.maxConcurrency := heq
      rw [heq2] at h1
      rw [h1] at h2
      exact Option.some.inj h2

/-- Witness for C1 at the spec scenario configuration (16 shards, concurrency
4), instantiated at the initial state. -/
theorem bucket_identify_exclusion_witness :
    (∀ b ∈ List.range 4, ∀ s1 ∈ List.range 16, ∀ s2 ∈ List.range 16,
      shardAt (initState ⟨16, 4, 4⟩) s1 = SState.identifying →
      shardAt (initState ⟨16, 4, 4⟩) s2 = SState.identifying →
      s1 % 4 = b → s2 % 4 = b → s1 = s2) ∧
    (identifyingSet ⟨16, 4, 4⟩ (initState ⟨16, 4, 4⟩)).card ≤ 4 :=
  bucket_identify_exclusion ⟨16, 4, 4⟩ (initState ⟨16, 4, 4⟩) (by decide)
    Relation.ReflTransGen.refl

/-- C3: with responsive workers, the startup run sends an IDENTIFY_SHARD
instruction for every shard of the generation to the worker owning it, and
every shard reaches Ready within 4 * totalShards scheduler steps. -/
theorem spawn_covers_all_shards (cfg : GenConfig) (h : 0 < cfg.maxConcurrency) :
    (∀ s ∈ List.range cfg.totalShards,
      (workerOf cfg s, s) ∈ (runD cfg [] (4 * cfg.totalShards)).sent) ∧
    allReady cfg (runD cfg [] (4 * cfg.totalShards)) :=
  ⟨sent_coverage cfg h, allReady_runD cfg h⟩

/-- Witness for C3 at the spec scenario configuration: all 16 shards are sent
IDENTIFY_SHARD and reach Ready. -/
theorem spawn_covers_all_shards_witness :
    (∀ s ∈ List.range 16,
      (workerOf ⟨16, 4, 4⟩ s, s) ∈ (runD ⟨16, 4, 4⟩ [] 64).sent) ∧
    allReady ⟨16, 4, 4⟩ (runD ⟨16, 4, 4⟩ [] 64) :=
  spawn_covers_all_shards ⟨16, 4, 4⟩ (by decide)

/-- C6 counterexample: with two shards in one bucket and shard 0 stuck before
READY, the scheduler reaches a fixpoint in which shard 0 holds the bucket and
shard 1 never becomes Ready — nothing times the waiter out. -/
theorem identify_waiter_timeout_counterexample :
    stepD ⟨2, 1, 2⟩ [0] (runD ⟨2, 1, 2⟩ [0] 5) = none ∧
    shardAt (runD ⟨2, 1, 2⟩ [0] 5) 1 ≠ SState.ready ∧
    shardAt (runD ⟨2, 1, 2⟩ [0] 5) 0 = SState.identifying := by
  decide

/-- C6 amended: identify waiters have no timeout; a shard that never reports
READY blocks its bucket permanently, so in the two-shard one-bucket
configuration with shard 0 stuck, shard 1 is not Ready after any number of
steps. -/
theorem stuck_shard_blocks_bucket_forever :
    ∀ k : Nat, shardAt (runD ⟨2, 1, 2⟩ [0] k) 1 ≠ SState.ready := by
  intro k
  rcases Nat.lt_or_ge k 2 with hk | hk
  · cases k with
    | zero => decide
    | succ k0 =>
      cases k0 with
      | zero => decide
      | succ k1 => exact absurd hk (by omega)
  · obtain ⟨j, rfl⟩ : ∃ j, k = 2 + j := ⟨k - 2, by omega⟩
    rw [runD_stable ⟨2, 1, 2⟩ [0] 2 (by decide) j]
    decide

/-- C7: during a recluster, generation N+1 runs the ordinary startup sequence
and the stop signal to the quiescent generation N is emitted only at an index
where N+1 is fully Ready; at every step up to that index, no shard Ready in
N+1 coincides with an in-flight identify lock held by generation N on that
shard's bucket. -/
theorem recluster_no_double_occupancy (cfg : GenConfig) (genN : GenState)
    (h : 0 < cfg.maxConcurrency) (hInv : Invariant cfg genN)
    (hReady : allReady cfg genN) :
    allReady cfg (newGenState cfg (reclusterStopIndex cfg)) ∧
    (∀ i ≤ reclusterStopIndex cfg, ∀ k ∈ List.range cfg.totalShards,
      shardAt (newGenState cfg i) k = SState.ready →
      ¬ inFlightBucket genN (concurrency cfg k)) := by
  constructor
  · exact allReady_runD cfg h
  · intro i _ k _ _
    intro hifb
    apply hifb
    have hbm : k % cfg.maxConcurrency ∈ List.range cfg.maxConcurrency :=
      List.mem_range.mpr (Nat.mod_lt k h)
    cases ho : (bucketAt genN (concurrency cfg k)).owner with
    | none => rfl
    | some o =>
      simp only [concurrency] at ho
      obtain ⟨hon, -, hoi⟩ := hInv.ownerInv _ hbm o (by rw [ho]; simp)
      rw [hReady o hon] at hoi
      cases hoi

/-- Witness for C7 at the two-shard configuration: generation N is a
completed startup run, generation N+1 restarts from scratch. -/
theorem recluster_no_double_occupancy_witness :
    allReady ⟨2, 1, 2⟩ (newGenState ⟨2, 1, 2⟩ (reclusterStopIndex ⟨2, 1, 2⟩)) ∧
    (∀ i ≤ reclusterStopIndex ⟨2, 1, 2⟩, ∀ k ∈ List.range 2,
      shardAt (newGenState ⟨2, 1, 2⟩ i) k = SState.ready →
      ¬ inFlightBucket (runD ⟨2, 1, 2⟩ [] 8) (concurrency ⟨2, 1, 2⟩ k)) :=
  recluster_no_double_occupancy ⟨2, 1, 2⟩ (runD ⟨2, 1, 2⟩ [] 8) (by decide)
    ⟨by decide, by decide, by decide, by decide, by decide, by decide, by decide,
     by decide, by decide, by decide, by decide, by decide, by decide, by decide,
     by decide⟩
    (by decide)
